import Mathlib

/-! # The access broker of `concurrency/lazyrw.c`

A shallow embedding of the per-file reader / writer / delete arbitration of
`lazyrw.c` and of the request loop of its `main`.  The chunked sort of
`concurrency/lazy-sort.c` follows in the namespace `LazySort`.

* Each worker thread (`process_request`) is a program counter over the critical
  sections of its handler.  The per-file mutex makes every critical section
  atomic, so one step of the model is one critical section of one worker.
* Real time is not modelled.  Every place where the code compares clocks (the
  pre-check of `process_request`, the result of `wait_with_timeout`) reads one
  boolean supplied by the schedule.  A call of `wait_with_timeout` that reports
  `ETIMEDOUT` without blocking is the step `wait` followed by the step `timeout`.
* `int` fields are `Int`.  The counters only grow while their sum is below
  `concurrent_limit`, itself an `int`, so they never overflow.
-/

namespace LazyRW

/-! ## Data model (lines 10-65) -/

/-- Capacity of the global array `files`. -/
def MAX_FILES : Nat := 100

/-- Capacity of the global array `requests`. -/
def MAX_REQUESTS : Nat := 1000

/-- Size of the line buffer of `main`. -/
def MAX_LINE : Nat := 256

/-- The enum `Operation`. -/
inductive Operation where
  | READ
  | WRITE
  | DELETE
deriving DecidableEq, Repr

/-- A C `double`, kept as its 64-bit pattern; no arithmetic is done on it here. -/
structure Double where
  bits : Nat
deriving DecidableEq, Repr

/-- The struct `Request`. -/
structure Request where
  user_id : Int
  file_id : Int
  operation : Operation
  request_time : Double
  is_processed : Bool
  is_cancelled : Bool
deriving DecidableEq, Repr

/-- The struct `Config`. -/
structure Config where
  read_time : Int
  write_time : Int
  delete_time : Int
  num_files : Int
  concurrent_limit : Int
  timeout : Int
  start_time : Double
deriving DecidableEq, Repr

/-- The struct `FileState`.  Its mutex is the atomicity of the steps below and
its condition variable is the program counter `Pc.waiting` of the workers
blocked on it. -/
structure FileState where
  active_readers : Int
  active_writers : Int
  is_deleted : Bool
deriving DecidableEq, Repr

/-- Where a worker thread stands in `process_request` and its handler. -/
inductive Pc where
  /-- Thread created, before the deadline pre-check of line 273. -/
  | spawned
  /-- Past the pre-check, about to lock the file in its handler. -/
  | entered
  /-- Blocked in `wait_with_timeout` inside the handler's `while` loop. -/
  | waiting
  /-- Holding a reader or writer slot, sleeping outside the lock. -/
  | admitted
  /-- The handler has returned to `process_request` (before line 298). -/
  | returned
  /-- The thread function has returned. -/
  | finished
deriving DecidableEq, Repr

/-- The event a step stands for. -/
inductive Label where
  /-- Pre-check of `process_request` found the deadline passed (lines 273-278). -/
  | cancel_early
  /-- Message "has taken up the request" (lines 281-284). -/
  | taken_up
  /-- Immediate decline on a deleted file (lines 136-143, 182-189, 229-236). -/
  | decline
  /-- The loop condition held: the worker blocks in `wait_with_timeout`. -/
  | wait
  /-- The wait reported `ETIMEDOUT` (lines 147-155, 194-202, 240-248). -/
  | timeout
  /-- Lines 158 and 205: the request is admitted, a counter is incremented. -/
  | admission
  /-- Lines 164 and 211: the counter is decremented. -/
  | release
  /-- Line 251: `is_deleted = true`. -/
  | delete
  /-- Line 298: `is_processed = true`. -/
  | processed
deriving DecidableEq, Repr

/-- One worker thread: its request, its program counter, and whether it has
printed the "has declined the request" message. -/
structure Worker where
  req : Request
  pc : Pc
  declined : Bool
deriving DecidableEq, Repr

/-- The shared state: the array `files` and the threads created by `main`. -/
structure State where
  files : List FileState
  workers : List Worker
deriving DecidableEq, Repr

/-! ## `initialize_files` (lines 110-118) -/

/-- A zero-filled `FileState`, as in static storage. -/
def zero_file : FileState := ⟨0, 0, false⟩

/-- The global `files[MAX_FILES]` before `main` runs. -/
def files_global : List FileState := List.replicate MAX_FILES zero_file

/-- The loop of `initialize_files`: entries `0 .. num_files-1` are reset.  With
`num_files > MAX_FILES` the C loop writes past the array; the model has no
result there. -/
def initialize_files (cfg : Config) (files : List FileState) : Option (List FileState) :=
  if cfg.num_files ≤ (MAX_FILES : Int) then
    some ((List.range cfg.num_files.toNat).foldl
      (fun fs i => fs.set i { active_readers := 0, active_writers := 0, is_deleted := false }) files)
  else none

/-- A freshly created thread for a parsed request.  The slot of `requests` it
points to comes from static storage, so both flags are false. -/
def spawn (r : Request) : Worker :=
  { req := { r with is_processed := false, is_cancelled := false }, pc := Pc.spawned,
    declined := false }

/-- State after `initialize_files` with one thread per request. -/
def init (cfg : Config) (reqs : List Request) : Option State :=
  (initialize_files cfg files_global).map (fun fs => { files := fs, workers := reqs.map spawn })

/-! ## The handlers (lines 129-262) -/

/-- The access `files[file_idx]`; outside the array the C behaviour is undefined
and the model has no result. -/
def file_at (files : List FileState) (file_idx : Int) : Option FileState :=
  if 0 ≤ file_idx then files[file_idx.toNat]? else none

/-- Loop condition of `handle_read` (line 145). -/
def read_blocked (cfg : Config) (f : FileState) : Bool :=
  decide (f.active_readers + f.active_writers ≥ cfg.concurrent_limit)

/-- Loop condition of `handle_write` (lines 191-192). -/
def write_blocked (cfg : Config) (f : FileState) : Bool :=
  decide (f.active_writers > 0) || decide (f.active_readers + f.active_writers ≥ cfg.concurrent_limit)

/-- Loop condition of `handle_delete` (line 238). -/
def delete_blocked (f : FileState) : Bool :=
  decide (f.active_readers > 0) || decide (f.active_writers > 0)

/-- The early return on a deleted file: message printed, nothing else touched. -/
def decline (f : FileState) (w : Worker) : Label × FileState × Worker :=
  (Label.decline, f, { w with pc := Pc.returned, declined := true })

/-- The `ETIMEDOUT` branch of the wait loops: `is_cancelled = true; return`. -/
def cancel (f : FileState) (w : Worker) : Label × FileState × Worker :=
  (Label.timeout, f, { w with req := { w.req with is_cancelled := true }, pc := Pc.returned })

/-- One test of the loop of `handle_read` and, when it fails, line 158. -/
def read_loop (cfg : Config) (f : FileState) (w : Worker) : Label × FileState × Worker :=
  if read_blocked cfg f then (Label.wait, f, { w with pc := Pc.waiting })
  else (Label.admission, { f with active_readers := f.active_readers + 1 }, { w with pc := Pc.admitted })

/-- One test of the loop of `handle_write` and, when it fails, line 205. -/
def write_loop (cfg : Config) (f : FileState) (w : Worker) : Label × FileState × Worker :=
  if write_blocked cfg f then (Label.wait, f, { w with pc := Pc.waiting })
  else (Label.admission, { f with active_writers := f.active_writers + 1 }, { w with pc := Pc.admitted })

/-- One test of the loop of `handle_delete` and, when it fails, lines 251-261:
the flag is set and the function returns (the lock is kept over the sleep). -/
def delete_loop (f : FileState) (w : Worker) : Label × FileState × Worker :=
  if delete_blocked f then (Label.wait, f, { w with pc := Pc.waiting })
  else (Label.delete, { f with is_deleted := true }, { w with pc := Pc.returned })

/-- The next critical section of `handle_read`.  `timed_out` is whether the wait
that just ended reported `ETIMEDOUT`. -/
def handle_read (cfg : Config) (f : FileState) (w : Worker) (timed_out : Bool) :
    Option (Label × FileState × Worker) :=
  match w.pc with
  | Pc.entered => if f.is_deleted then some (decline f w) else some (read_loop cfg f w)
  | Pc.waiting => if timed_out then some (cancel f w) else some (read_loop cfg f w)
  | Pc.admitted =>
      some (Label.release, { f with active_readers := f.active_readers - 1 },
        { w with pc := Pc.returned })
  | _ => none

/-- The next critical section of `handle_write`. -/
def handle_write (cfg : Config) (f : FileState) (w : Worker) (timed_out : Bool) :
    Option (Label × FileState × Worker) :=
  match w.pc with
  | Pc.entered => if f.is_deleted then some (decline f w) else some (write_loop cfg f w)
  | Pc.waiting => if timed_out then some (cancel f w) else some (write_loop cfg f w)
  | Pc.admitted =>
      some (Label.release, { f with active_writers := f.active_writers - 1 },
        { w with pc := Pc.returned })
  | _ => none

/-- The next critical section of `handle_delete`; it has no release step. -/
def handle_delete (f : FileState) (w : Worker) (timed_out : Bool) :
    Option (Label × FileState × Worker) :=
  match w.pc with
  | Pc.entered => if f.is_deleted then some (decline f w) else some (delete_loop f w)
  | Pc.waiting => if timed_out then some (cancel f w) else some (delete_loop f w)
  | _ => none

/-- The `switch` of `process_request` (lines 286-296). -/
def handler (cfg : Config) (f : FileState) (w : Worker) (timed_out : Bool) :
    Option (Label × FileState × Worker) :=
  match w.req.operation with
  | Operation.READ => handle_read cfg f w timed_out
  | Operation.WRITE => handle_write cfg f w timed_out
  | Operation.DELETE => handle_delete f w timed_out

/-! ## `process_request` (lines 265-300) and the interleaving -/

/-- The deadline pre-check of `process_request`; `timed_out` is the value of
`current_time - req->request_time > config.timeout`. -/
def pre_check (w : Worker) (timed_out : Bool) : Label × Worker :=
  if timed_out then
    (Label.cancel_early, { w with req := { w.req with is_cancelled := true }, pc := Pc.finished })
  else (Label.taken_up, { w with pc := Pc.entered })

/-- Line 298, run after whichever handler returned. -/
def mark_processed (w : Worker) : Label × Worker :=
  (Label.processed, { w with req := { w.req with is_processed := true }, pc := Pc.finished })

/-- The next critical section of the thread function `process_request` for the
worker `w`: the pre-check, one section of the handler chosen by the `switch`, or
line 298.  There is none when the thread has finished, or when its handler
indexes outside `files`. -/
def process_request (cfg : Config) (files : List FileState) (w : Worker) (timed_out : Bool) :
    Option (Label × List FileState × Worker) :=
  match w.pc with
  | Pc.finished => none
  | Pc.spawned => some ((pre_check w timed_out).1, files, (pre_check w timed_out).2)
  | Pc.returned => some ((mark_processed w).1, files, (mark_processed w).2)
  | _ =>
    match file_at files (w.req.file_id - 1) with
    | none => none
    | some f =>
      match handler cfg f w timed_out with
      | none => none
      | some (l, f', w') => some (l, files.set (w.req.file_id - 1).toNat f', w')

/-- One step of the program: worker `i` runs its next critical section.  There
is no step when thread `i` does not exist. -/
def step (cfg : Config) (s : State) (i : Nat) (timed_out : Bool) : Option (Label × State) :=
  match s.workers[i]? with
  | none => none
  | some w =>
    match process_request cfg s.files w timed_out with
    | none => none
    | some (l, files, w') => some (l, { files := files, workers := s.workers.set i w' })

/-- Run a schedule: each entry names the worker that moves and the clock
verdict it reads. -/
def exec (cfg : Config) : State → List (Nat × Bool) → Option State
  | s, [] => some s
  | s, (i, t) :: rest =>
    match step cfg s i t with
    | none => none
    | some (_, s') => exec cfg s' rest

/-- The events of a schedule, in order. -/
def trace (cfg : Config) : State → List (Nat × Bool) → Option (List Label)
  | _, [] => some []
  | s, (i, t) :: rest =>
    match step cfg s i t with
    | none => none
    | some (l, s') => (trace cfg s' rest).map (fun ls => l :: ls)

/-- States the program can be in: some request list, some schedule. -/
def Reachable (cfg : Config) (s : State) : Prop :=
  ∃ (reqs : List Request) (s0 : State) (sched : List (Nat × Bool)),
    init cfg reqs = some s0 ∧ exec cfg s0 sched = some s

/-- Whether `w` holds a slot of kind `op` on the file at index `k`: it is between
the increment and the decrement of its handler. -/
def holds (op : Operation) (k : Nat) (w : Worker) : Bool :=
  decide (w.pc = Pc.admitted) && decide (w.req.operation = op) &&
    decide (w.req.file_id - 1 = (k : Int))

/-- Number of workers that hold a slot of kind `op` on the file at index `k`. -/
def holders (op : Operation) (k : Nat) (ws : List Worker) : Nat :=
  ws.countP (holds op k)

/-- What `w` contributes to the counter of kind `op` of its own file. -/
def slot (op : Operation) (w : Worker) : Int :=
  if w.pc = Pc.admitted ∧ w.req.operation = op then 1 else 0


/-! ## Invariant and sample runs -/

/-- The accounting invariant: each counter equals the number of workers that
hold a slot of its kind, there is at most one writer, and with a non-negative
limit the shared budget is respected. -/
def Inv (cfg : Config) (s : State) : Prop :=
  ∀ k f, s.files[k]? = some f →
    f.active_readers = (holders Operation.READ k s.workers : Int) ∧
    f.active_writers = (holders Operation.WRITE k s.workers : Int) ∧
    f.active_writers ≤ 1 ∧
    (0 ≤ cfg.concurrent_limit → f.active_readers + f.active_writers ≤ cfg.concurrent_limit)

/-- One file, limit 2, every operation takes 1 second, timeout 5.  A READ and a
WRITE of file 1 made at time 0 are both taken up at second 1. -/
def demo_cfg : Config :=
  { read_time := 1, write_time := 1, delete_time := 1, num_files := 1, concurrent_limit := 2,
    timeout := 5, start_time := ⟨0⟩ }

/-- A READ and a WRITE of file 1. -/
def demo_reqs : List Request :=
  [ { user_id := 1, file_id := 1, operation := Operation.READ, request_time := ⟨0⟩,
      is_processed := false, is_cancelled := false },
    { user_id := 2, file_id := 1, operation := Operation.WRITE, request_time := ⟨0⟩,
      is_processed := false, is_cancelled := false } ]

/-- The sample run before any thread has moved. -/
def demo_init : State :=
  { files := files_global, workers := demo_reqs.map spawn }

/-- The reader passes the pre-check and is admitted, then the writer does the same. -/
def demo_sched : List (Nat × Bool) := [(0, false), (0, false), (1, false), (1, false)]

/-- The state the sample run ends in: both requests hold file 1. -/
def demo_state : State :=
  { files := { active_readers := 1, active_writers := 1, is_deleted := false } ::
      List.replicate 99 zero_file,
    workers := (demo_reqs.map spawn).map (fun w => { w with pc := Pc.admitted }) }


/-- The state of the sample run just before the writer is admitted: the reader
holds its slot, the writer has passed the pre-check. -/
def demo_mid : State :=
  { files := { active_readers := 1, active_writers := 0, is_deleted := false } ::
      List.replicate 99 zero_file,
    workers := [ { req := { user_id := 1, file_id := 1, operation := Operation.READ,
                            request_time := ⟨0⟩, is_processed := false, is_cancelled := false },
                   pc := Pc.admitted, declined := false },
                 { req := { user_id := 2, file_id := 1, operation := Operation.WRITE,
                            request_time := ⟨0⟩, is_processed := false, is_cancelled := false },
                   pc := Pc.entered, declined := false } ] }

/-- One file, limit 1, every operation takes 2 seconds, timeout 10.  With three
requests made at time 0 for a WRITE, a READ and a DELETE of file 1, the writer
is admitted at second 1 and the other two wait; it releases at second 3, well
before their deadline. -/
def race_cfg : Config :=
  { read_time := 2, write_time := 2, delete_time := 2, num_files := 1, concurrent_limit := 1,
    timeout := 10, start_time := ⟨0⟩ }

/-- One file, limit 1, every operation takes 5 seconds, timeout 2: a request
that has to wait for a slot passes its deadline before the holder releases. -/
def late_cfg : Config :=
  { read_time := 5, write_time := 5, delete_time := 5, num_files := 1, concurrent_limit := 1,
    timeout := 2, start_time := ⟨0⟩ }

/-- A WRITE, a READ and a DELETE of file 1. -/
def race_reqs : List Request :=
  [ { user_id := 1, file_id := 1, operation := Operation.WRITE, request_time := ⟨0⟩,
      is_processed := false, is_cancelled := false },
    { user_id := 2, file_id := 1, operation := Operation.READ, request_time := ⟨0⟩,
      is_processed := false, is_cancelled := false },
    { user_id := 3, file_id := 1, operation := Operation.DELETE, request_time := ⟨0⟩,
      is_processed := false, is_cancelled := false } ]

/-- The three requests of `race_reqs` before any thread has moved. -/
def race_init : State :=
  { files := files_global, workers := race_reqs.map spawn }

/-- Writer admitted; reader and delete both wait; writer releases; the delete
wins the lock; then the reader wakes up. -/
def race_sched : List (Nat × Bool) :=
  [(0, false), (0, false), (1, false), (1, false), (2, false), (2, false),
   (0, false), (2, false), (1, false)]

/-- One file with `concurrent_limit` 0, every operation takes 1 second, timeout
5: no READ or WRITE is ever admitted, a DELETE is. -/
def shut_cfg : Config :=
  { read_time := 1, write_time := 1, delete_time := 1, num_files := 1, concurrent_limit := 0,
    timeout := 5, start_time := ⟨0⟩ }

/-- A READ of file 1 made at time 0 and a DELETE of file 1 made at time 1 (the
double `1.0` has the bit pattern `0x3FF0000000000000`). -/
def shut_reqs : List Request :=
  [ { user_id := 1, file_id := 1, operation := Operation.READ, request_time := ⟨0⟩,
      is_processed := false, is_cancelled := false },
    { user_id := 2, file_id := 1, operation := Operation.DELETE,
      request_time := ⟨4607182418800017408⟩, is_processed := false, is_cancelled := false } ]

/-- The two requests of `shut_reqs` before any thread has moved. -/
def shut_init : State :=
  { files := files_global, workers := shut_reqs.map spawn }

/-- The READ is taken up at second 1 and waits; the DELETE is taken up at second
2 and deletes the file; its broadcast wakes the READ, which finds the loop
condition still true and waits again; at second 5 its wait reports `ETIMEDOUT`. -/
def shut_sched : List (Nat × Bool) :=
  [(0, false), (0, false), (1, false), (1, false), (0, false), (0, true)]

/-- Two writers on one file with limit 1; the second one times out in its wait. -/
def late_reqs : List Request :=
  [ { user_id := 1, file_id := 1, operation := Operation.WRITE, request_time := ⟨0⟩,
      is_processed := false, is_cancelled := false },
    { user_id := 2, file_id := 1, operation := Operation.WRITE, request_time := ⟨0⟩,
      is_processed := false, is_cancelled := false } ]

/-- The two writers before any thread has moved. -/
def late_init : State :=
  { files := files_global, workers := late_reqs.map spawn }

/-- The first writer is admitted; the second waits, its wait reports
`ETIMEDOUT`, and it runs line 298. -/
def late_sched : List (Nat × Bool) :=
  [(0, false), (0, false), (1, false), (1, false), (1, true), (1, false)]

/-- One configured file, and a READ for file 2. -/
def stray_reqs : List Request :=
  [ { user_id := 1, file_id := 2, operation := Operation.READ, request_time := ⟨0⟩,
      is_processed := false, is_cancelled := false } ]

/-- The stray READ before its thread has moved. -/
def stray_init : State :=
  { files := files_global, workers := stray_reqs.map spawn }

/-- The thread passes the pre-check and runs the first section of `handle_read`. -/
def stray_sched : List (Nat × Bool) := [(0, false), (0, false)]

/-- A state with file 1 deleted and a READ for it that has passed the pre-check. -/
def gone_state : State :=
  { files := { active_readers := 0, active_writers := 0, is_deleted := true } ::
      List.replicate 99 zero_file,
    workers := [ { req := { user_id := 7, file_id := 1, operation := Operation.READ,
                            request_time := ⟨0⟩, is_processed := false, is_cancelled := false },
                   pc := Pc.entered, declined := false } ] }

/-- A state with a writer on file 1 and a second writer blocked in its wait. -/
def queued_state : State :=
  { files := { active_readers := 0, active_writers := 1, is_deleted := false } ::
      List.replicate 99 zero_file,
    workers := [ { req := { user_id := 1, file_id := 1, operation := Operation.WRITE,
                            request_time := ⟨0⟩, is_processed := false, is_cancelled := false },
                   pc := Pc.admitted, declined := false },
                 { req := { user_id := 2, file_id := 1, operation := Operation.WRITE,
                            request_time := ⟨0⟩, is_processed := false, is_cancelled := false },
                   pc := Pc.waiting, declined := false } ] }

/-- A lone DELETE for file 1. -/
def solo_reqs : List Request :=
  [ { user_id := 4, file_id := 1, operation := Operation.DELETE, request_time := ⟨0⟩,
      is_processed := false, is_cancelled := false } ]

/-- The lone DELETE after its pre-check, on the untouched files. -/
def solo_state : State :=
  { files := files_global,
    workers := [ { req := { user_id := 4, file_id := 1, operation := Operation.DELETE,
                            request_time := ⟨0⟩, is_processed := false, is_cancelled := false },
                   pc := Pc.entered, declined := false } ] }

/-- The state after the delete step of `solo_state`. -/
def solo_deleted : State :=
  { files := { active_readers := 0, active_writers := 0, is_deleted := true } ::
      List.replicate 99 zero_file,
    workers := [ { req := { user_id := 4, file_id := 1, operation := Operation.DELETE,
                            request_time := ⟨0⟩, is_processed := false, is_cancelled := false },
                   pc := Pc.returned, declined := false } ] }

/-- Worker `i` has left its handler with `is_cancelled` set. -/
def CancelledDone (s : State) (i : Nat) : Prop :=
  ∃ w, s.workers[i]? = some w ∧ (w.pc = Pc.returned ∨ w.pc = Pc.finished) ∧
    w.req.is_cancelled = true

/-! ## The request loop of `main` (lines 328-367)

`stdin` is the text left after the two configuration lines.  The array
`requests` is kept as the list of its first `request_count` slots, in order;
`main` creates one thread per slot, so the list is also the list of threads.
The sleep until `request_time` is real time and is left out. -/

/-- The line feed. -/
def NL : Char := Char.ofNat 10

/-- The string terminator. -/
def NUL : Char := Char.ofNat 0

/-- `isspace` in the C locale: space, and tab to carriage return. -/
def isspace (c : Char) : Bool :=
  decide (c.toNat = 32) || (decide (9 ≤ c.toNat) && decide (c.toNat ≤ 13))

/-- `isdigit`. -/
def isdigit (c : Char) : Bool :=
  decide (48 ≤ c.toNat) && decide (c.toNat ≤ 57)

/-- The characters `fgets` stores when it may still store `room` of them: it
stops after a line feed, at the end of input, or when the room is used up. -/
def fgets_chars : Nat → List Char → List Char × List Char
  | 0, s => ([], s)
  | _ + 1, [] => ([], [])
  | room + 1, c :: s =>
    if c = NL then ([c], s) else (c :: (fgets_chars room s).1, (fgets_chars room s).2)

/-- `fgets(line, size, stdin)`: the stored characters and the unread input, or
`none` for the null pointer returned at end of input. -/
def fgets (size : Nat) (stdin : List Char) : Option (List Char × List Char) :=
  match stdin with
  | [] => none
  | _ :: _ => some (fgets_chars (size - 1) stdin)

/-- The buffer as the string functions see it: up to the first terminator. -/
def cstr (buf : List Char) : List Char :=
  buf.takeWhile (fun c => c != NUL)

/-- Line 334: `line[strcspn(line, "\n")] = 0`. -/
def chomp (buf : List Char) : List Char :=
  (cstr buf).takeWhile (fun c => c != NL)

/-- Whether `strncmp(a, b, n) == 0`, for strings without embedded terminators. -/
def strncmp_eq : Nat → List Char → List Char → Bool
  | 0, _, _ => true
  | _ + 1, [], [] => true
  | n + 1, a :: as, b :: bs => (a == b) && strncmp_eq n as bs
  | _ + 1, _, _ => false

/-- The sentinel word. -/
def STOP : List Char := ['S', 'T', 'O', 'P']

/-- Leading white space is skipped by every conversion used here. -/
def skip_space (s : List Char) : List Char :=
  s.dropWhile isspace

/-- The number a run of decimal digits denotes. -/
def digits_value (ds : List Char) : Nat :=
  ds.foldl (fun n c => 10 * n + (c.toNat - 48)) 0

/-- A run of decimal digits: its value and the rest, or `none` without a digit. -/
def scan_digits (s : List Char) : Option (Nat × List Char) :=
  if s.takeWhile isdigit = [] then none
  else some (digits_value (s.takeWhile isdigit), s.dropWhile isdigit)

/-- The conversion `%d`: white space, an optional sign, digits. -/
def scan_d (s : List Char) : Option (Int × List Char) :=
  match skip_space s with
  | [] => none
  | c :: r =>
    if c = '-' then (scan_digits r).map (fun p => (-(p.1 : Int), p.2))
    else if c = '+' then (scan_digits r).map (fun p => ((p.1 : Int), p.2))
    else (scan_digits (c :: r)).map (fun p => ((p.1 : Int), p.2))

/-- The conversion `%s`: white space, then the characters up to the next white
space; at least one is needed. -/
def scan_s (s : List Char) : Option (List Char × List Char) :=
  if (skip_space s).takeWhile (fun c => !isspace c) = [] then none
  else some ((skip_space s).takeWhile (fun c => !isspace c),
    (skip_space s).dropWhile (fun c => !isspace c))

/-- Whether a value fits the `int` that `%d` stores into. -/
def fits_int (v : Int) : Bool :=
  decide (-2147483648 ≤ v) && decide (v ≤ 2147483647)

/-- The conversion `%lf` of the C library, after its leading white space: the
double and the unread rest, or `none` on a matching failure.  The model takes
it as a parameter. -/
abbrev ScanLf := List Char → Option (Double × List Char)

/-- What `sscanf(line, "%d %d %s %lf", ...)` did. -/
inductive Sscanf where
  /-- Return value 4 with the four stored values. -/
  | all (user_id file_id : Int) (op_str : List Char) (request_time : Double)
  /-- A return value below 4; `stored` conversions succeeded before the failure. -/
  | fewer (stored : Nat)
  /-- Undefined in C: an integer that does not fit `int`, or a third field that
  overruns `op_str[10]`. -/
  | undefined
deriving DecidableEq, Repr

/-- The call of line 341. -/
def sscanf_request (scan_lf : ScanLf) (line : List Char) : Sscanf :=
  match scan_d line with
  | none => Sscanf.fewer 0
  | some (u, r1) =>
    if !fits_int u then Sscanf.undefined
    else match scan_d r1 with
      | none => Sscanf.fewer 1
      | some (f, r2) =>
        if !fits_int f then Sscanf.undefined
        else match scan_s r2 with
          | none => Sscanf.fewer 2
          | some (op_str, r3) =>
            if 10 ≤ op_str.length then Sscanf.undefined
            else match scan_lf (skip_space r3) with
              | none => Sscanf.fewer 3
              | some (t, _) => Sscanf.all u f op_str t

/-- The `strcmp` chain of lines 346-352. -/
def parse_operation (op_str : List Char) : Option Operation :=
  if op_str = ['R', 'E', 'A', 'D'] then some Operation.READ
  else if op_str = ['W', 'R', 'I', 'T', 'E'] then some Operation.WRITE
  else if op_str = ['D', 'E', 'L', 'E', 'T', 'E'] then some Operation.DELETE
  else none

/-- What one pass of the loop body does with the line it read. -/
inductive Iter where
  /-- The `break` of line 337. -/
  | stop
  /-- A `continue` (lines 343 and 351): no request, no thread. -/
  | skip
  /-- Lines 365-366: the slot is filled, a thread is created, `request_count++`. -/
  | create (r : Request)
  /-- Undefined in C: see `Sscanf.undefined`, or a write past `requests`. -/
  | undefined
deriving DecidableEq, Repr

/-- Lines 336-366 for the line just read, with `request_count` requests so far.
`sscanf` stores into `requests[request_count]` as it converts, so with the array
full any stored field is a write past its end. -/
def loop_body (scan_lf : ScanLf) (request_count : Nat) (line : List Char) : Iter :=
  if strncmp_eq 4 line STOP then Iter.stop
  else match sscanf_request scan_lf line with
    | Sscanf.undefined => Iter.undefined
    | Sscanf.fewer stored =>
        if 1 ≤ stored ∧ MAX_REQUESTS ≤ request_count then Iter.undefined else Iter.skip
    | Sscanf.all u f op_str t =>
        if MAX_REQUESTS ≤ request_count then Iter.undefined
        else match parse_operation op_str with
          | none => Iter.skip
          | some op =>
              Iter.create { user_id := u, file_id := f, operation := op, request_time := t,
                            is_processed := false, is_cancelled := false }

/-- How the loop ended. -/
inductive Run where
  /-- The loop was left: the requests created, in order, and the unread input. -/
  | done (requests : List Request) (unread : List Char)
  /-- The run met undefined behaviour. -/
  | undefined
  /-- The recursion budget of the model ran out. -/
  | starved
deriving DecidableEq, Repr

/-- The `while (1)` of lines 328-367, with a recursion budget. -/
def main_loop (scan_lf : ScanLf) : Nat → List Char → List Request → Run
  | 0, _, _ => Run.starved
  | fuel + 1, stdin, requests =>
    match fgets MAX_LINE stdin with
    | none => Run.done requests []
    | some (buf, rest) =>
      match loop_body scan_lf requests.length (chomp buf) with
      | Iter.stop => Run.done requests rest
      | Iter.skip => main_loop scan_lf fuel rest requests
      | Iter.create r => main_loop scan_lf fuel rest (requests ++ [r])
      | Iter.undefined => Run.undefined

/-- The loop run on the whole input; the budget given is always enough. -/
def dispatch (scan_lf : ScanLf) (stdin : List Char) (requests : List Request) : Run :=
  main_loop scan_lf (stdin.length + 1) stdin requests

/-- The text the next pass of the loop works on, and the input left unread. -/
def next_line (stdin : List Char) : Option (List Char × List Char) :=
  (fgets MAX_LINE stdin).map (fun p => (chomp p.1, p.2))

/-- A stand-in for `%lf` that knows one literal: a lone `0`, not followed by a
character that could continue a number, is the double `0.0` (all bits zero). -/
def scan_lf_zero : ScanLf := fun s =>
  match s with
  | '0' :: r =>
    match r with
    | [] => some (⟨0⟩, r)
    | c :: _ => if isspace c then some (⟨0⟩, r) else none
  | _ => none

/-- The keyword of an operation, as `main` compares it. -/
def keyword : Operation → List Char
  | Operation.READ => ['R', 'E', 'A', 'D']
  | Operation.WRITE => ['W', 'R', 'I', 'T', 'E']
  | Operation.DELETE => ['D', 'E', 'L', 'E', 'T', 'E']

/-- A decimal integer field: an optional minus sign and its digits. -/
def int_text (negative : Bool) (ds : List Char) : List Char :=
  if negative then '-' :: ds else ds

/-- The value of the field `int_text negative ds`. -/
def int_value (negative : Bool) (ds : List Char) : Int :=
  if negative then -(digits_value ds : Int) else (digits_value ds : Int)

/-- A request line in the documented format: two integer fields, a keyword and
a fourth field, separated by single spaces; `tail` is the fourth field and
whatever follows it. -/
def request_line (nu : Bool) (du : List Char) (nf : Bool) (df : List Char) (op : Operation)
    (tail : List Char) : List Char :=
  int_text nu du ++ ' ' :: (int_text nf df ++ ' ' :: (keyword op ++ ' ' :: tail))

/-- A sentinel line followed by a request line. -/
def stop_input : List Char := "STOP\n1 1 READ 0\n".toList

/-- A line that only begins with the sentinel word, then a request line. -/
def stopped_input : List Char := "STOPPED\n1 1 READ 0\n".toList

/-- A line whose first word is the sentinel, after a blank; then a request line. -/
def indented_stop_input : List Char := " STOP\n1 1 READ 0\n".toList

/-- A request line with a fifth field, then a second request line. -/
def extra_field_input : List Char := "1 1 READ 0 extra\n2 1 WRITE 0\n".toList

/-- The request of user 1 in the sample inputs. -/
def first_request : Request :=
  { user_id := 1, file_id := 1, operation := Operation.READ, request_time := ⟨0⟩,
    is_processed := false, is_cancelled := false }

/-- The request of user 2 in the sample inputs. -/
def second_request : Request :=
  { user_id := 2, file_id := 1, operation := Operation.WRITE, request_time := ⟨0⟩,
    is_processed := false, is_cancelled := false }

/-- A WRITE and two DELETEs of file 1, all made at time 0.  Under `race_cfg` the
writer is admitted at second 1 and both deletes wait behind it. -/
def twice_reqs : List Request :=
  [ { user_id := 1, file_id := 1, operation := Operation.WRITE, request_time := ⟨0⟩,
      is_processed := false, is_cancelled := false },
    { user_id := 2, file_id := 1, operation := Operation.DELETE, request_time := ⟨0⟩,
      is_processed := false, is_cancelled := false },
    { user_id := 3, file_id := 1, operation := Operation.DELETE, request_time := ⟨0⟩,
      is_processed := false, is_cancelled := false } ]

/-- The three requests of `twice_reqs` before any thread has moved. -/
def twice_init : State :=
  { files := files_global, workers := twice_reqs.map spawn }

/-- The writer is admitted, both deletes wait, the writer releases at second 3
and the first delete wakes up and deletes the file. -/
def twice_sched : List (Nat × Bool) :=
  [(0, false), (0, false), (1, false), (1, false), (2, false), (2, false),
   (0, false), (1, false)]

/-- The state `twice_sched` ends in: file 1 is deleted and idle, the writer and
the first delete have returned, the second delete is still in its wait. -/
def twice_state : State :=
  { files := { active_readers := 0, active_writers := 0, is_deleted := true } ::
      List.replicate 99 zero_file,
    workers := [ { req := { user_id := 1, file_id := 1, operation := Operation.WRITE,
                            request_time := ⟨0⟩, is_processed := false, is_cancelled := false },
                   pc := Pc.returned, declined := false },
                 { req := { user_id := 2, file_id := 1, operation := Operation.DELETE,
                            request_time := ⟨0⟩, is_processed := false, is_cancelled := false },
                   pc := Pc.returned, declined := false },
                 { req := { user_id := 3, file_id := 1, operation := Operation.DELETE,
                            request_time := ⟨0⟩, is_processed := false, is_cancelled := false },
                   pc := Pc.waiting, declined := false } ] }

/-- The state after the second delete woke up in `twice_state` and ran line 251
on the file that was already deleted. -/
def twice_deleted : State :=
  { files := { active_readers := 0, active_writers := 0, is_deleted := true } ::
      List.replicate 99 zero_file,
    workers := [ { req := { user_id := 1, file_id := 1, operation := Operation.WRITE,
                            request_time := ⟨0⟩, is_processed := false, is_cancelled := false },
                   pc := Pc.returned, declined := false },
                 { req := { user_id := 2, file_id := 1, operation := Operation.DELETE,
                            request_time := ⟨0⟩, is_processed := false, is_cancelled := false },
                   pc := Pc.returned, declined := false },
                 { req := { user_id := 3, file_id := 1, operation := Operation.DELETE,
                            request_time := ⟨0⟩, is_processed := false, is_cancelled := false },
                   pc := Pc.returned, declined := false } ] }

/-! ## Slots held by admitted workers -/

/-- Every worker that holds a slot is a READ or a WRITE whose file index lies
inside `files`. -/
def Held (s : State) : Prop :=
  ∀ (i : Nat) (w : Worker), s.workers[i]? = some w → w.pc = Pc.admitted →
    w.req.operation ≠ Operation.DELETE ∧ ∃ f, file_at s.files (w.req.file_id - 1) = some f

/-- The record of a file after the worker `w` gave back the slot it holds. -/
def released (f : FileState) (w : Worker) : FileState :=
  { f with active_readers := f.active_readers - slot Operation.READ w,
           active_writers := f.active_writers - slot Operation.WRITE w }

/-! ## The handlers as sequences of actions

The three handlers once more, this time as the order in which a single call
locks, unlocks, waits, sleeps and writes; what the writes do is in the step
model above. -/

/-- One action of a handler on its file. -/
inductive Action where
  /-- `pthread_mutex_lock(&files[file_idx].mutex)`. -/
  | lock
  /-- `pthread_mutex_unlock(&files[file_idx].mutex)`. -/
  | unlock
  /-- A call of `wait_with_timeout` on the file's condition variable. -/
  | wait
  /-- `sleep` for the configured read, write or delete time. -/
  | sleep
  /-- A write to a counter, to `is_deleted` or to `is_cancelled`. -/
  | update
  /-- A call of `print_message`. -/
  | print
  /-- `pthread_cond_broadcast` on the file's condition variable. -/
  | broadcast
deriving DecidableEq, Repr

/-- A path through a handler: the early return on a deleted file; `woken` waits
that end without a timeout and then one that reports `ETIMEDOUT`; or `woken`
such waits and then a loop condition that is false. -/
inductive Path where
  | declined
  | cancelled (woken : Nat)
  | completed (woken : Nat)
deriving DecidableEq, Repr

/-- The actions of `handle_read` (lines 134-171) along a path. -/
def handle_read_actions : Path → List Action
  | Path.declined => [Action.lock, Action.unlock, Action.print]
  | Path.cancelled woken =>
      Action.lock :: (List.replicate woken Action.wait ++
        [Action.wait, Action.print, Action.unlock, Action.update])
  | Path.completed woken =>
      Action.lock :: (List.replicate woken Action.wait ++
        [Action.update, Action.unlock, Action.sleep, Action.lock, Action.update, Action.print,
         Action.broadcast, Action.unlock])

/-- The actions of `handle_write` (lines 180-218) along a path. -/
def handle_write_actions : Path → List Action
  | Path.declined => [Action.lock, Action.unlock, Action.print]
  | Path.cancelled woken =>
      Action.lock :: (List.replicate woken Action.wait ++
        [Action.wait, Action.print, Action.unlock, Action.update])
  | Path.completed woken =>
      Action.lock :: (List.replicate woken Action.wait ++
        [Action.update, Action.unlock, Action.sleep, Action.lock, Action.update, Action.print,
         Action.broadcast, Action.unlock])

/-- The actions of `handle_delete` (lines 227-261) along a path: after line 251
comes the sleep of line 253, and the only unlock is line 261. -/
def handle_delete_actions : Path → List Action
  | Path.declined => [Action.lock, Action.unlock, Action.print]
  | Path.cancelled woken =>
      Action.lock :: (List.replicate woken Action.wait ++
        [Action.wait, Action.print, Action.unlock, Action.update])
  | Path.completed woken =>
      Action.lock :: (List.replicate woken Action.wait ++
        [Action.update, Action.sleep, Action.print, Action.broadcast, Action.unlock])

/-- Whether no `sleep` of the sequence happens while the file's mutex is held;
`held` is whether it is held at the start. -/
def sleeps_unlocked : Bool → List Action → Bool
  | _, [] => true
  | _, Action.lock :: rest => sleeps_unlocked true rest
  | _, Action.unlock :: rest => sleeps_unlocked false rest
  | held, Action.sleep :: rest => !held && sleeps_unlocked held rest
  | held, _ :: rest => sleeps_unlocked held rest


end LazyRW

namespace LazySort

/-! # The chunked sort of `concurrency/lazy-sort.c`

`distributed_sort` sorts chunks of `CHUNK_SIZE` records in worker threads and
then merges runs of doubling size.  The chunk workers write disjoint ranges and
are all joined before the first merge; every merge thread is joined right after
its creation.  So the result does not depend on the interleaving and the model
is a function.

* The model follows the path on which every `malloc` and every
  `pthread_create` succeeds.
* Array indices are `Nat`; the `int` arithmetic of the loops does not overflow
  for `n` below `2^30`.
* `qsort` belongs to the C library and is a parameter.
-/

/-- Length of the name buffer of a `File`. -/
def FNAME_LEN : Nat := 128

/-- Size of the node table. -/
def MAX_NODES : Nat := 8

/-- Number of records sorted by one chunk worker. -/
def CHUNK_SIZE : Nat := 1000

/-- Return code of a completed sort. -/
def SUCCESS : Int := 0

/-- The fields of `struct tm` that `strptime` fills. -/
structure Tm where
  tm_sec : Int
  tm_min : Int
  tm_hour : Int
  tm_mday : Int
  tm_mon : Int
  tm_year : Int
deriving DecidableEq, Repr

/-- The struct `File`. -/
structure File where
  name : List Char
  id : Int
  timestamp : Tm
deriving DecidableEq, Repr

/-- The struct `Node`, without its thread handle. -/
structure Node where
  node_id : Int
  is_active : Bool
  workload : Int
deriving DecidableEq, Repr

/-- The globals `nodes` and `active_nodes`. -/
structure Pool where
  nodes : List Node
  active_nodes : Int
deriving DecidableEq, Repr

/-- A comparator in the style of `qsort`: negative, zero or positive. -/
abbrev Comparator := File → File → Int

/-- The library function `qsort`, as a function from the range to sort to its
sorted content. -/
abbrev Qsort := Comparator → List File → List File

/-- An `int` result, wrapped to 32 bits. -/
def to_int32 (v : Int) : Int :=
  (v + 2147483648) % 4294967296 - 2147483648

/-- `compare_by_id` (line 64): the difference of the two ids. -/
def compare_by_id : Comparator := fun a b =>
  to_int32 (a.id - b.id)

/-- `init_nodes` (lines 71-79), with `active_nodes` at its initial 0. -/
def init_nodes : Pool :=
  { nodes := (List.range MAX_NODES).map
      (fun i => { node_id := (i : Int), is_active := false, workload := 0 }),
    active_nodes := 0 }

/-- The first loop of `get_available_node` (lines 86-95): the first active node
with room gets one more unit of work; the result is its index and the table. -/
def take_busy_node : List Node → Option (Nat × List Node)
  | [] => none
  | nd :: rest =>
    if nd.is_active = true ∧ nd.workload < (CHUNK_SIZE : Int) then
      some (0, { nd with workload := nd.workload + 1 } :: rest)
    else (take_busy_node rest).map (fun p => (p.1 + 1, nd :: p.2))

/-- The second loop of `get_available_node` (lines 96-106): the first idle node
is activated with a workload of 1. -/
def take_idle_node : List Node → Option (Nat × List Node)
  | [] => none
  | nd :: rest =>
    if nd.is_active = false then
      some (0, { nd with is_active := true, workload := 1 } :: rest)
    else (take_idle_node rest).map (fun p => (p.1 + 1, nd :: p.2))

/-- `get_available_node` (lines 82-109): the index of the node handed out, or
`none` for the null pointer, and the globals afterwards. -/
def get_available_node (pool : Pool) : Option Nat × Pool :=
  match take_busy_node pool.nodes with
  | some (i, nodes) => (some i, { nodes := nodes, active_nodes := pool.active_nodes })
  | none =>
    match take_idle_node pool.nodes with
    | some (i, nodes) => (some i, { nodes := nodes, active_nodes := pool.active_nodes + 1 })
    | none => (none, pool)

/-- `release_node` (lines 112-125) on `nodes[i]`. -/
def release_node (pool : Pool) (i : Nat) : Pool :=
  match pool.nodes[i]? with
  | none => pool
  | some nd =>
    if 0 < nd.workload then
      if nd.workload - 1 = 0 then
        { nodes := pool.nodes.set i { nd with workload := nd.workload - 1, is_active := false },
          active_nodes := pool.active_nodes - 1 }
      else { pool with nodes := pool.nodes.set i { nd with workload := nd.workload - 1 } }
    else pool

/-- The three `while` loops of `merge` (lines 144-150) on the copies `L` and `R`. -/
def merge_runs (comp : Comparator) : List File → List File → List File
  | [], r => r
  | a :: l, [] => a :: l
  | a :: l, b :: r =>
    if comp a b ≤ 0 then a :: merge_runs comp l (b :: r)
    else b :: merge_runs comp (a :: l) r

/-- `merge` (lines 128-154): `files[left..mid]` and `files[mid+1..right]` are
copied out and merged back into `files[left..right]`.  Its callers have
`left ≤ mid ≤ right`, so `n1 = mid - left + 1` and `n2 = right - mid` are the
natural-number differences. -/
def merge (files : List File) (left mid right : Nat) (comp : Comparator) : List File :=
  files.take left ++
    merge_runs comp ((files.drop left).take (mid - left + 1))
      ((files.drop (mid + 1)).take (right - mid)) ++
    files.drop (right + 1)

/-- The struct `SortTask`, without the array pointer. -/
structure SortTask where
  start : Nat
  finish : Nat
  comparator : Comparator
  is_merge : Bool

/-- `sort_worker` (lines 157-169): a merge task merges around the middle index
`(start + end) / 2`; a chunk task sorts `files[start .. end-1]`. -/
def sort_worker (qsort : Qsort) (task : SortTask) (files : List File) : List File :=
  if task.is_merge then
    merge files task.start ((task.start + task.finish) / 2) task.finish task.comparator
  else
    files.take task.start ++
      qsort task.comparator ((files.drop task.start).take (task.finish - task.start)) ++
      files.drop task.finish

/-- How a call of `distributed_sort` ended. -/
inductive SortRun where
  /-- It returned `code` with the array and the node table as given. -/
  | done (code : Int) (files : List File) (pool : Pool)
  /-- Undefined in C: a chunk got no node, so `pthread_join` reads a thread
  handle that was never written. -/
  | undefined
  /-- The recursion budget of the model ran out. -/
  | starved

/-- One pass of the first loop (lines 190-206) for chunk `i`: the array, the
node table, and whether every chunk so far got a thread. -/
def start_chunk (qsort : Qsort) (n : Nat) (comp : Comparator)
    (st : Pool × List File × Bool) (i : Nat) : Pool × List File × Bool :=
  match get_available_node st.1 with
  | (none, pool) => (pool, st.2.1, false)
  | (some _, pool) =>
      (pool,
       sort_worker qsort
         { start := i * CHUNK_SIZE,
           finish := if (i + 1) * CHUNK_SIZE < n then (i + 1) * CHUNK_SIZE else n,
           comparator := comp, is_merge := false } st.2.1,
       st.2.2)

/-- The inner loop of the merge phase (lines 216-229) for one `size`, from
index `i` on.  The outer loop runs it with `size < n`, where the test
`i < n - size` is `i + size < n`. -/
def merge_pass (qsort : Qsort) (n size : Nat) (comp : Comparator) :
    Nat → Nat → Pool × List File → Option (Pool × List File)
  | 0, _, _ => none
  | fuel + 1, i, st =>
    if i + size < n then
      match get_available_node st.1 with
      | (none, pool) => merge_pass qsort n size comp fuel (i + 2 * size) (pool, st.2)
      | (some k, pool) =>
          merge_pass qsort n size comp fuel (i + 2 * size)
            (release_node pool k,
             sort_worker qsort
               { start := i,
                 finish := if i + 2 * size - 1 < n then i + 2 * size - 1 else n - 1,
                 comparator := comp, is_merge := true } st.2)
    else some st

/-- The outer loop of the merge phase (line 214), from `size` on. -/
def merge_phase (qsort : Qsort) (n : Nat) (comp : Comparator) :
    Nat → Nat → Pool × List File → Option (Pool × List File)
  | 0, _, _ => none
  | fuel + 1, size, st =>
    if size < n then
      match merge_pass qsort n size comp (n + 1) 0 st with
      | none => none
      | some st' => merge_phase qsort n comp fuel (2 * size) st'
    else some st

/-- `distributed_sort` (lines 172-235) on an array of `n` records. -/
def distributed_sort (qsort : Qsort) (pool : Pool) (files : List File) (n : Nat)
    (comp : Comparator) : SortRun :=
  if n < CHUNK_SIZE then
    SortRun.done SUCCESS (qsort comp (files.take n) ++ files.drop n) pool
  else
    match (List.range ((n + CHUNK_SIZE - 1) / CHUNK_SIZE)).foldl (start_chunk qsort n comp)
        (pool, files, true) with
    | (_, _, false) => SortRun.undefined
    | (pool1, files1, true) =>
      match merge_phase qsort n comp n CHUNK_SIZE
          ((List.range ((n + CHUNK_SIZE - 1) / CHUNK_SIZE)).foldl
            (fun p i => release_node p (i % MAX_NODES)) pool1, files1) with
      | none => SortRun.starved
      | some (pool2, files2) => SortRun.done SUCCESS files2 pool2

/-- A stand-in for `qsort`: insertion from the right end.  On a range whose
records are already in strictly increasing order it returns the range, as every
sorting function does. -/
def insertion_qsort : Qsort := fun comp files =>
  files.foldr (fun a sorted =>
    sorted.takeWhile (fun b => decide (comp b a < 0)) ++
      a :: sorted.dropWhile (fun b => decide (comp b a < 0))) []

/-- Whether each record is at most its right neighbour under `comp`. -/
def in_order (comp : Comparator) : List File → Bool
  | [] => true
  | [_] => true
  | a :: b :: rest => decide (comp a b ≤ 0) && in_order comp (b :: rest)

/-- A record with the given id, an empty name and a zero timestamp. -/
def record (id : Int) : File :=
  { name := [], id := id, timestamp := ⟨0, 0, 0, 0, 0, 0⟩ }

/-- The records with ids `a`, `a + 1`, ..., `a + n - 1`, in this order. -/
def asc : Nat → Nat → List File
  | _, 0 => []
  | a, n + 1 => record (a : Int) :: asc (a + 1) n

/-- An array of 2500 records: ids 500 to 2499 in increasing order, then ids 0
to 499 in increasing order.  Each chunk of 1000 is already sorted. -/
def rotated_input : List File :=
  asc 500 2000 ++ asc 0 500

/-- The node table while the three chunk workers of a 2500-record sort run:
node 0 carries all three. -/
def pool_chunks : Pool :=
  (get_available_node (get_available_node (get_available_node init_nodes).2).2).2

/-- The node table after the join loop of a 2500-record sort: `release_node` was
called on nodes 0, 1 and 2, so node 0 keeps a workload of 2. -/
def pool_joined : Pool :=
  release_node (release_node (release_node pool_chunks 0) 1) 2

/-- The node table while a merge thread of that sort runs. -/
def pool_merging : Pool :=
  (get_available_node pool_joined).2

/-- The array and return code of a run, if it returned. -/
def returned (r : SortRun) : Option (Int × List File) :=
  match r with
  | SortRun.done code files _ => some (code, files)
  | _ => none

end LazySort

namespace LazyRW

/-! ## Lemmas on the interleaving -/

theorem holders_set (op : Operation) (k : Nat) (ws : List Worker) (i : Nat) (w w' : Worker)
    (h : ws[i]? = some w) :
    holders op k (ws.set i w') + (if holds op k w then 1 else 0)
      = holders op k ws + (if holds op k w' then 1 else 0) := by
  obtain ⟨hi, hw⟩ := List.getElem?_eq_some.mp h
  have h1 := List.countP_set (holds op k) ws i w' hi
  have h2 := List.boole_getElem_le_countP (holds op k) ws i hi
  rw [hw] at h1 h2
  unfold holders
  omega

theorem handler_accounts (cfg : Config) (f f' : FileState) (w w' : Worker) (t : Bool) (l : Label)
    (h : handler cfg f w t = some (l, f', w')) :
    w'.req.file_id = w.req.file_id ∧ w'.req.operation = w.req.operation ∧
    f'.active_readers + slot Operation.READ w = f.active_readers + slot Operation.READ w' ∧
    f'.active_writers + slot Operation.WRITE w = f.active_writers + slot Operation.WRITE w' ∧
    (f.active_writers ≤ 1 → f'.active_writers ≤ 1) ∧
    (f.active_readers + f.active_writers ≤ cfg.concurrent_limit →
      f'.active_readers + f'.active_writers ≤ cfg.concurrent_limit) := by
  unfold handler handle_read handle_write handle_delete read_loop write_loop delete_loop
    decline cancel read_blocked write_blocked delete_blocked at h
  cases hop : w.req.operation <;> cases hpc : w.pc <;> simp only [hop, hpc] at h <;>
    first
    | (cases h; done)
    | ((try split_ifs at h) <;> simp only [Option.some.injEq, Prod.mk.injEq] at h <;>
        obtain ⟨_, rfl, rfl⟩ := h <;> simp_all [slot] <;> omega)

theorem step_inv (cfg : Config) (s s' : State) (i : Nat) (t : Bool) (l : Label)
    (h : step cfg s i t = some (l, s')) :
    ∃ w w', s.workers[i]? = some w ∧ s'.workers = s.workers.set i w' ∧
      ((s'.files = s.files ∧ w.pc ≠ Pc.admitted ∧ w'.pc ≠ Pc.admitted ∧
          (l = Label.cancel_early ∨ l = Label.taken_up ∨ l = Label.processed)) ∨
       (∃ f f', file_at s.files (w.req.file_id - 1) = some f ∧
          handler cfg f w t = some (l, f', w') ∧
          s'.files = s.files.set (w.req.file_id - 1).toNat f')) := by
  unfold step at h
  cases hw : s.workers[i]? with
  | none => simp [hw] at h
  | some w =>
    simp only [hw] at h
    unfold process_request at h
    cases hpc : w.pc <;> simp only [hpc] at h
    case finished => cases h
    case spawned =>
      simp only [Option.some.injEq, Prod.mk.injEq] at h
      obtain ⟨rfl, rfl⟩ := h
      refine ⟨w, _, rfl, rfl, Or.inl ?_⟩
      unfold pre_check
      cases t <;> simp [hpc]
    case returned =>
      simp only [Option.some.injEq, Prod.mk.injEq] at h
      obtain ⟨rfl, rfl⟩ := h
      refine ⟨w, _, rfl, rfl, Or.inl ?_⟩
      simp [mark_processed, hpc]
    all_goals
      cases hf : file_at s.files (w.req.file_id - 1) with
      | none => simp [hf] at h
      | some f =>
        simp only [hf] at h
        cases hh : handler cfg f w t with
        | none => simp [hh] at h
        | some r =>
          obtain ⟨l1, f1, w1⟩ := r
          simp only [hh, Option.some.injEq, Prod.mk.injEq] at h
          obtain ⟨rfl, rfl⟩ := h
          exact ⟨w, w1, rfl, rfl, Or.inr ⟨f, f1, hf, hh, rfl⟩⟩

theorem holds_slot (op : Operation) (k : Nat) (w : Worker) (h : w.req.file_id - 1 = (k : Int)) :
    ((if holds op k w then 1 else 0 : Nat) : Int) = slot op w := by
  unfold holds slot
  by_cases h1 : w.pc = Pc.admitted <;> by_cases h2 : w.req.operation = op <;> simp [h1, h2, h]

theorem holds_other (op : Operation) (k : Nat) (w : Worker) (h : w.req.file_id - 1 ≠ (k : Int)) :
    holds op k w = false := by
  unfold holds
  simp [h]

theorem holds_idle (op : Operation) (k : Nat) (w : Worker) (h : w.pc ≠ Pc.admitted) :
    holds op k w = false := by
  unfold holds
  simp [h]

theorem inv_step (cfg : Config) (s s' : State) (i : Nat) (t : Bool) (l : Label)
    (hinv : Inv cfg s) (h : step cfg s i t = some (l, s')) : Inv cfg s' := by
  obtain ⟨w, w', hw, hws, hcase⟩ := step_inv cfg s s' i t l h
  intro k f1 hf1
  have hR := holders_set Operation.READ k s.workers i w w' hw
  have hW := holders_set Operation.WRITE k s.workers i w w' hw
  rw [hws]
  rcases hcase with ⟨hfiles, hpc, hpc', _⟩ | ⟨f, f', hfa, hh, hfiles⟩
  · rw [hfiles] at hf1
    have := hinv k f1 hf1
    simp only [holds_idle _ _ _ hpc, holds_idle _ _ _ hpc'] at hR hW
    simp only [Bool.false_eq_true, if_false, add_zero] at hR hW
    rw [hR, hW]
    exact this
  · obtain ⟨hid, hop, hr, hwr, hle, hlim⟩ := handler_accounts cfg f f' w w' t l hh
    unfold file_at at hfa
    split at hfa
    case isFalse => cases hfa
    case isTrue hnn =>
      have hidx : ((w.req.file_id - 1).toNat : Int) = w.req.file_id - 1 := Int.toNat_of_nonneg hnn
      rw [hfiles, List.getElem?_set] at hf1
      by_cases hk : (w.req.file_id - 1).toNat = k
      · subst hk
        have hlt : (w.req.file_id - 1).toNat < s.files.length := by
          have := List.getElem?_eq_some.mp hfa
          exact this.1
        simp only [if_true, hlt, Option.some.injEq] at hf1
        subst hf1
        obtain ⟨i1, i2, i3, i4⟩ := hinv _ f hfa
        have e1 := holds_slot Operation.READ _ w hidx.symm
        have e2 := holds_slot Operation.WRITE _ w hidx.symm
        have e3 := holds_slot Operation.READ _ w' (by rw [hid]; exact hidx.symm)
        have e4 := holds_slot Operation.WRITE _ w' (by rw [hid]; exact hidx.symm)
        refine ⟨?_, ?_, ?_, ?_⟩
        · omega
        · omega
        · omega
        · intro h0; have := i4 h0; omega
      · simp only [hk, if_false] at hf1
        have hne : w.req.file_id - 1 ≠ (k : Int) := by
          intro he; apply hk; rw [he]; simp
        have hne' : w'.req.file_id - 1 ≠ (k : Int) := by rw [hid]; exact hne
        simp only [holds_other _ _ _ hne, holds_other _ _ _ hne'] at hR hW
        simp only [Bool.false_eq_true, if_false, add_zero] at hR hW
        rw [hR, hW]
        exact hinv k f1 hf1

theorem foldl_set_zero (l : List Nat) (fs : List FileState)
    (h : ∀ (k : Nat) (f : FileState), fs[k]? = some f → f = zero_file) :
    ∀ (k : Nat) (f : FileState), (l.foldl (fun fs i => fs.set i
      { active_readers := 0, active_writers := 0, is_deleted := false }) fs)[k]? = some f →
      f = zero_file := by
  induction l generalizing fs with
  | nil => simpa using h
  | cons i l ih =>
    simp only [List.foldl_cons]
    apply ih
    intro k f hk
    rw [List.getElem?_set] at hk
    by_cases hik : i = k
    · rw [if_pos hik] at hk
      by_cases hlt : i < fs.length
      · rw [if_pos hlt] at hk
        cases hk; rfl
      · rw [if_neg hlt] at hk
        cases hk
    · rw [if_neg hik] at hk
      exact h k f hk

theorem init_files_zero (cfg : Config) (reqs : List Request) (s0 : State)
    (h : init cfg reqs = some s0) :
    (∀ (k : Nat) (f : FileState), s0.files[k]? = some f → f = zero_file) ∧ s0.workers = reqs.map spawn := by
  unfold init initialize_files at h
  split_ifs at h
  · simp only [Option.map_some', Option.some.injEq] at h
    subst h
    refine ⟨?_, rfl⟩
    apply foldl_set_zero
    intro k f hk
    unfold files_global at hk
    rw [List.getElem?_replicate] at hk
    by_cases hlt : k < MAX_FILES
    · rw [if_pos hlt] at hk
      cases hk; rfl
    · rw [if_neg hlt] at hk
      cases hk
  · simp at h

theorem holders_spawn (op : Operation) (k : Nat) (reqs : List Request) :
    holders op k (reqs.map spawn) = 0 := by
  unfold holders
  rw [List.countP_eq_zero]
  intro w hw
  obtain ⟨r, _, rfl⟩ := List.mem_map.mp hw
  simp [holds, spawn]

theorem inv_init (cfg : Config) (reqs : List Request) (s0 : State)
    (h : init cfg reqs = some s0) : Inv cfg s0 := by
  obtain ⟨hz, hw⟩ := init_files_zero cfg reqs s0 h
  intro k f hf
  rw [hw, holders_spawn, holders_spawn, hz k f hf]
  simp [zero_file]

theorem inv_exec (cfg : Config) (sched : List (Nat × Bool)) (s s' : State)
    (hinv : Inv cfg s) (h : exec cfg s sched = some s') : Inv cfg s' := by
  induction sched generalizing s with
  | nil =>
    simp only [exec, Option.some.injEq] at h
    subst h
    exact hinv
  | cons e rest ih =>
    obtain ⟨i, t⟩ := e
    simp only [exec] at h
    cases hs : step cfg s i t with
    | none => simp [hs] at h
    | some r =>
      obtain ⟨l, s1⟩ := r
      simp only [hs] at h
      exact ih s1 (inv_step cfg s s1 i t l hinv hs) h

theorem inv_reachable (cfg : Config) (s : State) (h : Reachable cfg s) : Inv cfg s := by
  obtain ⟨reqs, s0, sched, h0, h1⟩ := h
  exact inv_exec cfg sched s0 s (inv_init cfg reqs s0 h0) h1

theorem demo_reachable : Reachable demo_cfg demo_state :=
  ⟨demo_reqs, demo_init, demo_sched, by decide, by decide⟩


theorem set_same {α : Type} (l : List α) (i : Nat) (a : α) (h : l[i]? = some a) :
    l.set i a = l := by
  apply List.ext_getElem?
  intro j
  rw [List.getElem?_set]
  by_cases hij : i = j
  · subst hij
    have hlt := (List.getElem?_eq_some.mp h).1
    rw [if_pos rfl, if_pos hlt, h]
  · rw [if_neg hij]

theorem handler_cases (cfg : Config) (f f' : FileState) (w w' : Worker) (t : Bool) (l : Label)
    (h : handler cfg f w t = some (l, f', w')) :
    (f' = f ∧ (l = Label.decline ∨ l = Label.wait ∨ l = Label.timeout)) ∨
    (l = Label.admission ∧ w.req.operation = Operation.READ ∧ read_blocked cfg f = false ∧
      f' = { f with active_readers := f.active_readers + 1 }) ∨
    (l = Label.admission ∧ w.req.operation = Operation.WRITE ∧ write_blocked cfg f = false ∧
      f' = { f with active_writers := f.active_writers + 1 }) ∨
    (l = Label.release ∧ w.req.operation = Operation.READ ∧
      f' = { f with active_readers := f.active_readers - 1 }) ∨
    (l = Label.release ∧ w.req.operation = Operation.WRITE ∧
      f' = { f with active_writers := f.active_writers - 1 }) ∨
    (l = Label.delete ∧ w.req.operation = Operation.DELETE ∧ delete_blocked f = false ∧
      f' = { f with is_deleted := true }) := by
  unfold handler handle_read handle_write handle_delete read_loop write_loop delete_loop
    decline cancel at h
  cases hop : w.req.operation <;> cases hpc : w.pc <;> simp only [hop, hpc] at h <;>
    first
    | (cases h; done)
    | ((try split_ifs at h) <;> simp only [Option.some.injEq, Prod.mk.injEq] at h <;>
        obtain ⟨rfl, rfl, rfl⟩ := h <;> simp_all)

/-- A step that changes the record of file `k` is a handler section of a
worker whose request names that file. -/
theorem step_file_change (cfg : Config) (s s' : State) (i : Nat) (t : Bool) (l : Label)
    (h : step cfg s i t = some (l, s')) (k : Nat) (f f' : FileState)
    (hf : s.files[k]? = some f) (hf' : s'.files[k]? = some f') (hne : f' ≠ f) :
    ∃ w w', s.workers[i]? = some w ∧ w.req.file_id - 1 = (k : Int) ∧
      handler cfg f w t = some (l, f', w') := by
  obtain ⟨w, w', hw, _, hcase⟩ := step_inv cfg s s' i t l h
  rcases hcase with ⟨hfiles, _⟩ | ⟨g, g', hfa, hh, hfiles⟩
  · rw [hfiles, hf] at hf'
    cases hf'
    exact absurd rfl hne
  · unfold file_at at hfa
    split at hfa
    case isFalse => cases hfa
    case isTrue hnn =>
      have hidx : ((w.req.file_id - 1).toNat : Int) = w.req.file_id - 1 := Int.toNat_of_nonneg hnn
      rw [hfiles, List.getElem?_set] at hf'
      by_cases hk : (w.req.file_id - 1).toNat = k
      · subst hk
        have hlt := (List.getElem?_eq_some.mp hfa).1
        rw [if_pos rfl, if_pos hlt] at hf'
        cases hf'
        rw [hf] at hfa
        cases hfa
        exact ⟨w, w', hw, hidx.symm, hh⟩
      · rw [if_neg hk, hf] at hf'
        cases hf'
        exact absurd rfl hne

theorem step_done (cfg : Config) (s s' : State) (i : Nat) (t : Bool) (l : Label) (w : Worker)
    (hw : s.workers[i]? = some w) (hpc : w.pc = Pc.returned ∨ w.pc = Pc.finished)
    (h : step cfg s i t = some (l, s')) :
    l = Label.processed ∧ s'.files = s.files ∧
      s'.workers = s.workers.set i
        { w with req := { w.req with is_processed := true }, pc := Pc.finished } := by
  unfold step process_request at h
  simp only [hw] at h
  rcases hpc with hpc | hpc <;> simp only [hpc] at h
  · simp only [mark_processed, Option.some.injEq, Prod.mk.injEq] at h
    obtain ⟨rfl, rfl⟩ := h
    exact ⟨rfl, rfl, rfl⟩
  · cases h

/-! ## Sample states are reachable; cancelled workers stay cancelled -/

theorem demo_mid_reachable : Reachable demo_cfg demo_mid :=
  ⟨demo_reqs, demo_init, [(0, false), (0, false), (1, false)], by decide, by decide⟩

theorem solo_reachable : Reachable race_cfg solo_state :=
  ⟨solo_reqs, { files := files_global, workers := solo_reqs.map spawn }, [(0, false)],
    by decide, by decide⟩

theorem cancelled_done_step (cfg : Config) (s s' : State) (i j : Nat) (t : Bool) (l : Label)
    (hd : CancelledDone s i) (h : step cfg s j t = some (l, s')) : CancelledDone s' i := by
  obtain ⟨w, hw, hpc, hc⟩ := hd
  by_cases hij : j = i
  · subst hij
    obtain ⟨_, _, hws⟩ := step_done cfg s s' j t l w hw hpc h
    have hlt := (List.getElem?_eq_some.mp hw).1
    refine ⟨{ w with req := { w.req with is_processed := true }, pc := Pc.finished }, ?_,
      Or.inr rfl, hc⟩
    rw [hws, List.getElem?_set_self hlt]
  · obtain ⟨_, w', _, hws, _⟩ := step_inv cfg s s' j t l h
    refine ⟨w, ?_, hpc, hc⟩
    rw [hws, List.getElem?_set_ne hij]
    exact hw

theorem cancelled_done_exec (cfg : Config) (sched : List (Nat × Bool)) (s s' : State) (i : Nat)
    (hd : CancelledDone s i) (h : exec cfg s sched = some s') : CancelledDone s' i := by
  induction sched generalizing s with
  | nil =>
    simp only [exec, Option.some.injEq] at h
    subst h
    exact hd
  | cons e rest ih =>
    obtain ⟨j, t⟩ := e
    simp only [exec] at h
    cases hs : step cfg s j t with
    | none => simp [hs] at h
    | some r =>
      obtain ⟨l, s1⟩ := r
      simp only [hs] at h
      exact ih s1 (cancelled_done_step cfg s s1 i j t l hd hs) h

theorem handler_timeout (cfg : Config) (f : FileState) (w : Worker) (hpc : w.pc = Pc.waiting) :
    handler cfg f w true = some (cancel f w) := by
  unfold handler handle_read handle_write handle_delete
  cases w.req.operation <;> simp only [hpc, if_true]


/-! ## Lemmas on the request loop -/

theorem strncmp_stop (line : List Char) :
    strncmp_eq 4 line STOP = true ↔ line.take 4 = STOP := by
  unfold STOP
  rcases line with _ | ⟨a, _ | ⟨b, _ | ⟨c, _ | ⟨d, l⟩⟩⟩⟩ <;> simp [strncmp_eq]

theorem fgets_chars_length (room : Nat) (s : List Char) :
    (fgets_chars room s).2.length ≤ s.length := by
  induction room generalizing s with
  | zero => simp [fgets_chars]
  | succ n ih =>
    cases s with
    | nil => simp [fgets_chars]
    | cons c s =>
      simp only [fgets_chars]
      split
      · simp
      · simp only [List.length_cons]
        exact Nat.le_succ_of_le (ih s)

theorem fgets_shorter (stdin buf rest : List Char) (h : fgets MAX_LINE stdin = some (buf, rest)) :
    rest.length < stdin.length := by
  unfold fgets at h
  cases stdin with
  | nil => simp at h
  | cons c s =>
    simp only [MAX_LINE, Option.some.injEq] at h
    simp only [fgets_chars] at h
    split at h
    · simp only [Prod.mk.injEq] at h
      obtain ⟨_, rfl⟩ := h
      simp
    · simp only [Prod.mk.injEq] at h
      obtain ⟨_, rfl⟩ := h
      simp only [List.length_cons]
      exact Nat.lt_succ_of_le (fgets_chars_length _ s)

theorem main_loop_fuel (scan_lf : ScanLf) (f1 f2 : Nat) (stdin : List Char) (reqs : List Request)
    (h1 : stdin.length < f1) (h2 : stdin.length < f2) :
    main_loop scan_lf f1 stdin reqs = main_loop scan_lf f2 stdin reqs := by
  induction f1 generalizing f2 stdin reqs with
  | zero => omega
  | succ n ih =>
    cases f2 with
    | zero => omega
    | succ m =>
      simp only [main_loop]
      cases hg : fgets MAX_LINE stdin with
      | none => rfl
      | some p =>
        obtain ⟨buf, rest⟩ := p
        have hlt := fgets_shorter stdin buf rest hg
        simp only
        cases loop_body scan_lf reqs.length (chomp buf) with
        | stop => rfl
        | undefined => rfl
        | skip => exact ih m rest reqs (by omega) (by omega)
        | create r => exact ih m rest (reqs ++ [r]) (by omega) (by omega)

/-- The loop equation of `dispatch`: one pass on the next line, then the rest. -/
theorem dispatch_next (scan_lf : ScanLf) (stdin line rest : List Char) (reqs : List Request)
    (h : next_line stdin = some (line, rest)) :
    dispatch scan_lf stdin reqs =
      match loop_body scan_lf reqs.length line with
      | Iter.stop => Run.done reqs rest
      | Iter.skip => dispatch scan_lf rest reqs
      | Iter.create r => dispatch scan_lf rest (reqs ++ [r])
      | Iter.undefined => Run.undefined := by
  unfold next_line at h
  cases hg : fgets MAX_LINE stdin with
  | none => simp [hg] at h
  | some p =>
    obtain ⟨buf, rest1⟩ := p
    simp only [hg, Option.map_some', Option.some.injEq, Prod.mk.injEq] at h
    obtain ⟨rfl, rfl⟩ := h
    have hlt := fgets_shorter stdin buf rest1 hg
    unfold dispatch
    simp only [main_loop, hg]
    cases loop_body scan_lf reqs.length (chomp buf) with
    | stop => rfl
    | undefined => rfl
    | skip =>
      exact main_loop_fuel scan_lf stdin.length (rest1.length + 1) rest1 reqs hlt (by omega)
    | create r =>
      exact main_loop_fuel scan_lf stdin.length (rest1.length + 1) rest1 (reqs ++ [r]) hlt
        (by omega)

theorem dispatch_eof (scan_lf : ScanLf) (reqs : List Request) :
    dispatch scan_lf [] reqs = Run.done reqs [] := by
  simp [dispatch, main_loop, fgets]

theorem next_line_some (stdin : List Char) (h : stdin ≠ []) :
    ∃ line rest, next_line stdin = some (line, rest) ∧ rest.length < stdin.length := by
  cases stdin with
  | nil => exact absurd rfl h
  | cons c s =>
    refine ⟨chomp (fgets_chars (MAX_LINE - 1) (c :: s)).1, (fgets_chars (MAX_LINE - 1) (c :: s)).2,
      rfl, ?_⟩
    exact fgets_shorter (c :: s) _ _ rfl

/-- The budget of `dispatch` is enough: the run never starves. -/
theorem dispatch_total (scan_lf : ScanLf) (n : Nat) :
    ∀ (stdin : List Char) (reqs : List Request), stdin.length ≤ n →
      dispatch scan_lf stdin reqs ≠ Run.starved := by
  induction n with
  | zero =>
    intro stdin reqs hlen
    have : stdin = [] := List.length_eq_zero.mp (by omega)
    subst this
    rw [dispatch_eof]
    simp
  | succ n ih =>
    intro stdin reqs hlen
    by_cases hnil : stdin = []
    · subst hnil
      rw [dispatch_eof]
      simp
    · obtain ⟨line, rest, hl, hlt⟩ := next_line_some stdin hnil
      rw [dispatch_next scan_lf stdin line rest reqs hl]
      cases loop_body scan_lf reqs.length line with
      | stop => simp
      | undefined => simp
      | skip => exact ih rest reqs (by omega)
      | create r => exact ih rest (reqs ++ [r]) (by omega)

theorem fgets_chars_line (line rest : List Char) (room : Nat)
    (hnl : ∀ c ∈ line, c ≠ NL) (hroom : line.length < room) :
    fgets_chars room (line ++ NL :: rest) = (line ++ [NL], rest) := by
  induction line generalizing room with
  | nil =>
    cases room with
    | zero => omega
    | succ n => simp [fgets_chars]
  | cons c l ih =>
    cases room with
    | zero => omega
    | succ n =>
      have hc : c ≠ NL := hnl c (List.mem_cons_self c l)
      have hl : ∀ d ∈ l, d ≠ NL := fun d hd => hnl d (List.mem_cons_of_mem c hd)
      simp only [List.length_cons] at hroom
      have hrec := ih n hl (by omega)
      show fgets_chars (n + 1) (c :: (l ++ NL :: rest)) = (c :: (l ++ [NL]), rest)
      simp only [fgets_chars, if_neg hc, hrec]

theorem chomp_line (line : List Char) (h : ∀ c ∈ line, c ≠ NL ∧ c ≠ NUL) :
    chomp (line ++ [NL]) = line := by
  unfold chomp cstr
  induction line with
  | nil => simp [NL, NUL]
  | cons c l ih =>
    have hc := h c (List.mem_cons_self c l)
    have hl : ∀ d ∈ l, d ≠ NL ∧ d ≠ NUL := fun d hd => h d (List.mem_cons_of_mem c hd)
    simp only [List.cons_append, List.takeWhile_cons, bne_iff_ne, ne_eq, hc.1, hc.2,
      not_false_eq_true, if_true, ih hl]

/-- A line of at most `MAX_LINE - 2` characters, ended by a line feed, is read
whole by one `fgets` and reaches the loop body without its line feed. -/
theorem next_line_of_line (line rest : List Char) (h : ∀ c ∈ line, c ≠ NL ∧ c ≠ NUL)
    (hlen : line.length + 2 ≤ MAX_LINE) :
    next_line (line ++ NL :: rest) = some (line, rest) := by
  have hne : line ++ NL :: rest ≠ [] := by simp
  unfold next_line fgets
  cases hs : line ++ NL :: rest with
  | nil => exact absurd hs hne
  | cons c s =>
    show Option.map (fun p => (chomp p.1, p.2)) (some (fgets_chars (MAX_LINE - 1) (c :: s))) =
      some (line, rest)
    rw [← hs, fgets_chars_line line rest (MAX_LINE - 1) (fun c hc => (h c hc).1) (by omega)]
    simp only [Option.map_some', chomp_line line h]

theorem takeWhile_digits (ds r : List Char) (x : Char) (hds : ∀ c ∈ ds, isdigit c = true)
    (hx : isdigit x = false) :
    (ds ++ x :: r).takeWhile isdigit = ds ∧ (ds ++ x :: r).dropWhile isdigit = x :: r := by
  induction ds with
  | nil => simp [hx]
  | cons d l ih =>
    have hd := hds d (List.mem_cons_self d l)
    have hl : ∀ c ∈ l, isdigit c = true := fun c hc => hds c (List.mem_cons_of_mem d hc)
    obtain ⟨h1, h2⟩ := ih hl
    simp [hd, h1, h2]

theorem scan_digits_field (ds r : List Char) (hne : ds ≠ [])
    (hds : ∀ c ∈ ds, isdigit c = true) :
    scan_digits (ds ++ ' ' :: r) = some (digits_value ds, ' ' :: r) := by
  obtain ⟨h1, h2⟩ := takeWhile_digits ds r ' ' hds (by decide)
  unfold scan_digits
  rw [h1, h2, if_neg hne]

theorem digit_facts (d : Char) (hd : isdigit d = true) :
    isspace d = false ∧ d ≠ '-' ∧ d ≠ '+' ∧ d ≠ 'S' := by
  unfold isdigit at hd
  simp only [Bool.and_eq_true, decide_eq_true_eq] at hd
  refine ⟨?_, ?_, ?_, ?_⟩
  · unfold isspace
    simp only [Bool.or_eq_false_iff, decide_eq_false_iff_not, Bool.and_eq_false_iff]
    omega
  · intro h; rw [h] at hd; revert hd; decide
  · intro h; rw [h] at hd; revert hd; decide
  · intro h; rw [h] at hd; revert hd; decide

theorem scan_d_field (neg : Bool) (ds r : List Char) (hne : ds ≠ [])
    (hds : ∀ c ∈ ds, isdigit c = true) :
    scan_d (int_text neg ds ++ ' ' :: r) = some (int_value neg ds, ' ' :: r) := by
  cases ds with
  | nil => exact absurd rfl hne
  | cons d l =>
    obtain ⟨hsp, hm, hp, _⟩ := digit_facts d (hds d (List.mem_cons_self d l))
    have hsd := scan_digits_field (d :: l) r hne hds
    cases neg with
    | true =>
      have : skip_space ('-' :: (d :: l) ++ ' ' :: r) = '-' :: ((d :: l) ++ ' ' :: r) := by
        simp [skip_space, isspace]
      simp only [scan_d, int_text, int_value, if_true, List.cons_append] at *
      rw [this]
      simp only [if_true, hsd, Option.map_some']
    | false =>
      have : skip_space ((d :: l) ++ ' ' :: r) = (d :: l) ++ ' ' :: r := by
        simp [skip_space, hsp]
      simp only [scan_d, int_text, int_value, Bool.false_eq_true, if_false, List.cons_append] at *
      rw [this]
      simp only [if_neg hm, if_neg hp, hsd, Option.map_some']

theorem skip_space_blank (s : List Char) : skip_space (' ' :: s) = skip_space s := by
  simp [skip_space, isspace]

theorem scan_d_blank (s : List Char) : scan_d (' ' :: s) = scan_d s := by
  unfold scan_d
  rw [skip_space_blank]

theorem scan_s_keyword (op : Operation) (tail : List Char) :
    scan_s (' ' :: (keyword op ++ ' ' :: tail)) = some (keyword op, ' ' :: tail) := by
  unfold scan_s
  rw [skip_space_blank]
  cases op <;> simp [skip_space, keyword, isspace]

theorem parse_keyword (op : Operation) : parse_operation (keyword op) = some op := by
  cases op <;> simp [parse_operation, keyword]

theorem sscanf_request_line (scan_lf : ScanLf) (nu : Bool) (du : List Char) (nf : Bool)
    (df : List Char) (op : Operation) (tail : List Char) (t : Double) (r4 : List Char)
    (hdu : du ≠ []) (hdu' : ∀ c ∈ du, isdigit c = true)
    (hdf : df ≠ []) (hdf' : ∀ c ∈ df, isdigit c = true)
    (hfu : fits_int (int_value nu du) = true) (hff : fits_int (int_value nf df) = true)
    (hlf : scan_lf (skip_space tail) = some (t, r4)) :
    sscanf_request scan_lf (request_line nu du nf df op tail) =
      Sscanf.all (int_value nu du) (int_value nf df) (keyword op) t := by
  have hk : ¬ 10 ≤ (keyword op).length := by cases op <;> simp [keyword]
  unfold sscanf_request request_line
  simp only [scan_d_field nu du _ hdu hdu', hfu, scan_d_blank, scan_d_field nf df _ hdf hdf', hff,
    scan_s_keyword, skip_space_blank, hlf, if_neg hk, Bool.not_true, Bool.false_eq_true, if_false]

/-- A line in the documented format never starts with the sentinel word. -/
theorem request_line_not_stop (nu : Bool) (du : List Char) (nf : Bool) (df : List Char)
    (op : Operation) (tail : List Char) (hdu : du ≠ []) (hdu' : ∀ c ∈ du, isdigit c = true) :
    (request_line nu du nf df op tail).take 4 ≠ STOP := by
  cases du with
  | nil => exact absurd rfl hdu
  | cons d l =>
    obtain ⟨_, _, _, hS⟩ := digit_facts d (hdu' d (List.mem_cons_self d l))
    cases nu <;> simp [request_line, int_text, STOP, hS]

/-- A run only appends: the requests made so far stay at the front of the result. -/
theorem dispatch_keeps (scan_lf : ScanLf) (n : Nat) :
    ∀ (stdin : List Char) (reqs rs : List Request) (unread : List Char), stdin.length ≤ n →
      dispatch scan_lf stdin reqs = Run.done rs unread → ∃ more, rs = reqs ++ more := by
  induction n with
  | zero =>
    intro stdin reqs rs unread hlen hd
    have : stdin = [] := List.length_eq_zero.mp (by omega)
    subst this
    rw [dispatch_eof] at hd
    cases hd
    exact ⟨[], by simp⟩
  | succ n ih =>
    intro stdin reqs rs unread hlen hd
    by_cases hnil : stdin = []
    · subst hnil
      rw [dispatch_eof] at hd
      cases hd
      exact ⟨[], by simp⟩
    · obtain ⟨line, rest, hl, hlt⟩ := next_line_some stdin hnil
      rw [dispatch_next scan_lf stdin line rest reqs hl] at hd
      cases hb : loop_body scan_lf reqs.length line with
      | stop =>
        rw [hb] at hd
        cases hd
        exact ⟨[], by simp⟩
      | undefined =>
        rw [hb] at hd
        cases hd
      | skip =>
        rw [hb] at hd
        exact ih rest reqs rs unread (by omega) hd
      | create r =>
        rw [hb] at hd
        obtain ⟨more, hm⟩ := ih rest (reqs ++ [r]) rs unread (by omega) hd
        exact ⟨r :: more, by rw [hm]; simp⟩

/-! ## Properties of the specification, C1 to C10 -/

/-- C1: with `concurrent_limit >= 0`, in every reachable state every file has
`active_readers >= 0`, `active_writers` equal to 0 or 1, and
`active_readers + active_writers <= concurrent_limit`. -/
theorem C1_counters_within_limit (cfg : Config) (hlim : 0 ≤ cfg.concurrent_limit) (s : State)
    (hr : Reachable cfg s) (k : Nat) (f : FileState) (hf : s.files[k]? = some f) :
    0 ≤ f.active_readers ∧ (f.active_writers = 0 ∨ f.active_writers = 1) ∧
      f.active_readers + f.active_writers ≤ cfg.concurrent_limit := by
  obtain ⟨h1, h2, h3, h4⟩ := inv_reachable cfg s hr k f hf
  refine ⟨by omega, by omega, h4 hlim⟩

/-- The sample run with limit 2 reaches a state with one reader and one writer
on file 1, and C1 holds of it. -/
theorem C1_counters_within_limit_witness :
    0 ≤ demo_cfg.concurrent_limit ∧ Reachable demo_cfg demo_state ∧
      demo_state.files[0]? = some ⟨1, 1, false⟩ ∧
      (0 ≤ (FileState.mk 1 1 false).active_readers ∧
        ((FileState.mk 1 1 false).active_writers = 0 ∨ (FileState.mk 1 1 false).active_writers = 1) ∧
        (FileState.mk 1 1 false).active_readers + (FileState.mk 1 1 false).active_writers
          ≤ demo_cfg.concurrent_limit) :=
  ⟨by decide, demo_reachable, rfl,
    C1_counters_within_limit demo_cfg (by decide) demo_state demo_reachable 0 ⟨1, 1, false⟩ rfl⟩

/-- C2, as stated, fails: in the sample run (limit 2) the step that admits the
WRITE fires on a file whose `active_readers` is 1, and the state it produces has
one reader and one writer active on the same file. -/
theorem C2_writer_admitted_beside_reader :
    init demo_cfg demo_reqs = some demo_init ∧
      exec demo_cfg demo_init [(0, false), (0, false), (1, false)] = some demo_mid ∧
      demo_mid.files[0]? = some ⟨1, 0, false⟩ ∧
      step demo_cfg demo_mid 1 false = some (Label.admission, demo_state) ∧
      demo_state.files[0]? = some ⟨1, 1, false⟩ ∧
      holders Operation.READ 0 demo_state.workers = 1 ∧
      holders Operation.WRITE 0 demo_state.workers = 1 := by
  decide

/-- C2, amended: in every reachable state each file has at most one active
writer, and a step that raises `active_writers` of a file is the admit step of a
WRITE for that file, taken when `active_writers = 0` and
`active_readers + active_writers < concurrent_limit`; readers may be active. -/
theorem C2_one_writer_at_a_time (cfg : Config) (s : State) (hr : Reachable cfg s) :
    (∀ (k : Nat) (f : FileState), s.files[k]? = some f →
      f.active_writers = (holders Operation.WRITE k s.workers : Int) ∧
        holders Operation.WRITE k s.workers ≤ 1) ∧
    (∀ (i : Nat) (t : Bool) (l : Label) (s' : State) (k : Nat) (f f' : FileState),
      step cfg s i t = some (l, s') → s.files[k]? = some f → s'.files[k]? = some f' →
      f.active_writers < f'.active_writers →
        l = Label.admission ∧
        (∃ w, s.workers[i]? = some w ∧ w.req.operation = Operation.WRITE ∧
          w.req.file_id - 1 = (k : Int)) ∧
        f.active_writers = 0 ∧ f'.active_writers = 1 ∧
        f.active_readers + f.active_writers < cfg.concurrent_limit) := by
  have hinv := inv_reachable cfg s hr
  constructor
  · intro k f hf
    obtain ⟨_, h2, h3, _⟩ := hinv k f hf
    exact ⟨h2, by omega⟩
  · intro i t l s' k f f' hstep hf hf' hlt
    have hne : f' ≠ f := by
      intro he; rw [he] at hlt; exact lt_irrefl _ hlt
    obtain ⟨w, w', hw, hk, hh⟩ := step_file_change cfg s s' i t l hstep k f f' hf hf' hne
    obtain ⟨_, h2, _, _⟩ := hinv k f hf
    rcases handler_cases cfg f f' w w' t l hh with
      ⟨he, _⟩ | ⟨_, _, _, he⟩ | ⟨hl, hop, hb, he⟩ | ⟨_, _, he⟩ | ⟨_, _, he⟩ | ⟨_, _, _, he⟩
    · exact absurd he hne
    · rw [he] at hlt; simp at hlt
    · subst he
      simp only [write_blocked, Bool.or_eq_false_iff, decide_eq_false_iff_not, not_lt,
        ge_iff_le, not_le] at hb
      refine ⟨hl, ⟨w, hw, hop, hk⟩, by omega, ?_, hb.2⟩
      show f.active_writers + 1 = 1
      omega
    · rw [he] at hlt; simp at hlt
    · rw [he] at hlt; simp only at hlt; omega
    · rw [he] at hlt; simp at hlt

/-- The amended C2 at the writer's admission in the sample run. -/
theorem C2_one_writer_at_a_time_witness :
    Reachable demo_cfg demo_mid ∧
      step demo_cfg demo_mid 1 false = some (Label.admission, demo_state) ∧
      (Label.admission = Label.admission ∧
        (∃ w, demo_mid.workers[1]? = some w ∧ w.req.operation = Operation.WRITE ∧
          w.req.file_id - 1 = ((0 : Nat) : Int)) ∧
        (FileState.mk 1 0 false).active_writers = 0 ∧
        (FileState.mk 1 1 false).active_writers = 1 ∧
        (FileState.mk 1 0 false).active_readers + (FileState.mk 1 0 false).active_writers
          < demo_cfg.concurrent_limit) :=
  ⟨demo_mid_reachable, by decide,
    (C2_one_writer_at_a_time demo_cfg demo_mid demo_mid_reachable).2 1 false Label.admission
      demo_state 0 ⟨1, 0, false⟩ ⟨1, 1, false⟩ (by decide) rfl rfl (by decide)⟩

/-- A step that turns `is_deleted` of a file from false to true is the delete
step of a DELETE for that file, taken with both counters 0. -/
theorem delete_flip_idle (cfg : Config) (s : State) (hr : Reachable cfg s)
    (i : Nat) (t : Bool) (l : Label) (s' : State) (k : Nat) (f f' : FileState)
    (hstep : step cfg s i t = some (l, s')) (hf : s.files[k]? = some f)
    (hf' : s'.files[k]? = some f') (h0 : f.is_deleted = false) (h1 : f'.is_deleted = true) :
    l = Label.delete ∧
      (∃ w, s.workers[i]? = some w ∧ w.req.operation = Operation.DELETE ∧
        w.req.file_id - 1 = (k : Int)) ∧
      f.active_readers = 0 ∧ f.active_writers = 0 := by
  have hne : f' ≠ f := by
    intro he; rw [he, h0] at h1; cases h1
  obtain ⟨w, w', hw, hk, hh⟩ := step_file_change cfg s s' i t l hstep k f f' hf hf' hne
  obtain ⟨h1r, h2w, _, _⟩ := inv_reachable cfg s hr k f hf
  rcases handler_cases cfg f f' w w' t l hh with
    ⟨he, _⟩ | ⟨_, _, _, he⟩ | ⟨_, _, _, he⟩ | ⟨_, _, he⟩ | ⟨_, _, he⟩ | ⟨hl, hop, hb, he⟩
  · exact absurd he hne
  · rw [he] at h1; simp [h0] at h1
  · rw [he] at h1; simp [h0] at h1
  · rw [he] at h1; simp [h0] at h1
  · rw [he] at h1; simp [h0] at h1
  · simp only [delete_blocked, Bool.or_eq_false_iff, decide_eq_false_iff_not, not_lt] at hb
    exact ⟨hl, ⟨w, hw, hop, hk⟩, by omega, by omega⟩

/-- Every delete step, whether or not the file was deleted before: it is taken
by a DELETE worker in `handle_delete`, on a file whose counters are both 0, and
all it writes is `is_deleted = true` on that file. -/
theorem delete_step_idle (cfg : Config) (s : State) (hr : Reachable cfg s)
    (i : Nat) (t : Bool) (s' : State) (hstep : step cfg s i t = some (Label.delete, s')) :
    ∃ w f, s.workers[i]? = some w ∧ w.req.operation = Operation.DELETE ∧
      file_at s.files (w.req.file_id - 1) = some f ∧
      f.active_readers = 0 ∧ f.active_writers = 0 ∧
      s'.files = s.files.set (w.req.file_id - 1).toNat { f with is_deleted := true } := by
  obtain ⟨w, w', hw, _, hcase⟩ := step_inv cfg s s' i t Label.delete hstep
  rcases hcase with ⟨_, _, _, hl⟩ | ⟨f, f', hfa, hh, hfiles⟩
  · rcases hl with hl | hl | hl <;> cases hl
  · have hk : s.files[(w.req.file_id - 1).toNat]? = some f := by
      unfold file_at at hfa
      split at hfa
      · exact hfa
      · cases hfa
    obtain ⟨h1r, h2w, _, _⟩ := inv_reachable cfg s hr _ f hk
    rcases handler_cases cfg f f' w w' t Label.delete hh with
      ⟨_, hl⟩ | ⟨hl, _⟩ | ⟨hl, _⟩ | ⟨hl, _⟩ | ⟨hl, _⟩ | ⟨_, hop, hb, he⟩
    · rcases hl with hl | hl | hl <;> cases hl
    · cases hl
    · cases hl
    · cases hl
    · cases hl
    · simp only [delete_blocked, Bool.or_eq_false_iff, decide_eq_false_iff_not, not_lt] at hb
      refine ⟨w, f, hw, hop, hfa, by omega, by omega, ?_⟩
      rw [hfiles, he]

/-- C3: in every reachable state, every step of `handle_delete` that sets
`is_deleted = true` (line 251), on a file deleted before or not, fires only
when the target file has `active_readers = 0` and `active_writers = 0`; and no
other step turns `is_deleted` of any file from false to true. -/
theorem C3_delete_only_when_idle (cfg : Config) (s : State) (hr : Reachable cfg s) :
    (∀ (i : Nat) (t : Bool) (s' : State), step cfg s i t = some (Label.delete, s') →
      ∃ w f, s.workers[i]? = some w ∧ w.req.operation = Operation.DELETE ∧
        file_at s.files (w.req.file_id - 1) = some f ∧
        f.active_readers = 0 ∧ f.active_writers = 0 ∧
        s'.files = s.files.set (w.req.file_id - 1).toNat { f with is_deleted := true }) ∧
    (∀ (i : Nat) (t : Bool) (l : Label) (s' : State) (k : Nat) (f f' : FileState),
      step cfg s i t = some (l, s') → s.files[k]? = some f → s'.files[k]? = some f' →
      f.is_deleted = false → f'.is_deleted = true →
        l = Label.delete ∧
        (∃ w, s.workers[i]? = some w ∧ w.req.operation = Operation.DELETE ∧
          w.req.file_id - 1 = (k : Int)) ∧
        f.active_readers = 0 ∧ f.active_writers = 0) :=
  ⟨fun i t s' hstep => delete_step_idle cfg s hr i t s' hstep,
   fun i t l s' k f f' hstep hf hf' h0 h1 =>
     delete_flip_idle cfg s hr i t l s' k f f' hstep hf hf' h0 h1⟩

theorem twice_reachable : Reachable race_cfg twice_state :=
  ⟨twice_reqs, twice_init, twice_sched, by decide, by decide⟩

/-- C3 at two delete steps: the second DELETE of `twice_reqs`, which wakes up
after the first one deleted the file and runs line 251 on the deleted, idle
file; and the lone DELETE that deletes an untouched file. -/
theorem C3_delete_only_when_idle_witness :
    Reachable race_cfg twice_state ∧
      twice_state.files[0]? = some ⟨0, 0, true⟩ ∧
      step race_cfg twice_state 2 false = some (Label.delete, twice_deleted) ∧
      (∃ w f, twice_state.workers[2]? = some w ∧ w.req.operation = Operation.DELETE ∧
        file_at twice_state.files (w.req.file_id - 1) = some f ∧
        f.active_readers = 0 ∧ f.active_writers = 0 ∧
        twice_deleted.files =
          twice_state.files.set (w.req.file_id - 1).toNat { f with is_deleted := true }) ∧
      Reachable race_cfg solo_state ∧
      step race_cfg solo_state 0 false = some (Label.delete, solo_deleted) ∧
      (Label.delete = Label.delete ∧
        (∃ w, solo_state.workers[0]? = some w ∧ w.req.operation = Operation.DELETE ∧
          w.req.file_id - 1 = ((0 : Nat) : Int)) ∧
        (FileState.mk 0 0 false).active_readers = 0 ∧
        (FileState.mk 0 0 false).active_writers = 0) :=
  ⟨twice_reachable, rfl, by decide,
    (C3_delete_only_when_idle race_cfg twice_state twice_reachable).1 2 false twice_deleted
      (by decide),
    solo_reachable, by decide,
    (C3_delete_only_when_idle race_cfg solo_state solo_reachable).2 0 false Label.delete
      solo_deleted 0 ⟨0, 0, false⟩ ⟨0, 0, true⟩ (by decide) rfl rfl rfl rfl⟩

/-- C4 fails on the code: with limit 1, a READ and a DELETE both wait behind a
writer; when the writer releases and the DELETE takes the lock first, the READ
that was waiting is admitted on the deleted file (`active_readers` becomes 1
while `is_deleted` is true) instead of being declined.  With limit 0 a READ
that waits while the DELETE is admitted ends with a timeout, not a decline. -/
theorem C4_waiting_read_admitted_after_delete :
    init race_cfg race_reqs = some race_init ∧
      trace race_cfg race_init race_sched =
        some [Label.taken_up, Label.admission, Label.taken_up, Label.wait, Label.taken_up,
          Label.wait, Label.release, Label.delete, Label.admission] ∧
      (exec race_cfg race_init race_sched).map
          (fun s => (s.files[0]?, s.workers.map (fun w => (w.pc, w.declined)))) =
        some (some ⟨1, 0, true⟩,
          [(Pc.returned, false), (Pc.admitted, false), (Pc.returned, false)]) ∧
      init shut_cfg shut_reqs = some shut_init ∧
      trace shut_cfg shut_init shut_sched =
        some [Label.taken_up, Label.wait, Label.taken_up, Label.delete, Label.wait,
          Label.timeout] ∧
      (exec shut_cfg shut_init shut_sched).map
          (fun s => (s.files[0]?,
            s.workers.map (fun w => (w.pc, w.req.is_cancelled, w.declined)))) =
        some (some ⟨0, 0, true⟩, [(Pc.returned, true, false), (Pc.returned, false, false)]) := by
  decide

/-- C5: when a handler (READ, WRITE or DELETE) is entered on a file whose
`is_deleted` is true, its one step is the decline: the worker goes straight to
the return without waiting, its request (so `is_cancelled`) is untouched, and
the whole `files` array is unchanged. -/
theorem C5_deleted_file_declines (cfg : Config) (s : State) (i : Nat) (t : Bool) (w : Worker)
    (f : FileState) (hw : s.workers[i]? = some w) (hpc : w.pc = Pc.entered)
    (hf : file_at s.files (w.req.file_id - 1) = some f) (hdel : f.is_deleted = true) :
    step cfg s i t = some (Label.decline,
      { files := s.files,
        workers := s.workers.set i { req := w.req, pc := Pc.returned, declined := true } }) := by
  have hfile : s.files.set (w.req.file_id - 1).toNat f = s.files := by
    unfold file_at at hf
    split at hf
    · exact set_same _ _ _ hf
    · cases hf
  have hh : handler cfg f w t = some (decline f w) := by
    unfold handler handle_read handle_write handle_delete
    cases w.req.operation <;> simp only [hpc, hdel, if_true]
  unfold step process_request
  simp only [hw, hpc, hf, hh, decline, hfile]

/-- C5 for a READ entering on the deleted file 1. -/
theorem C5_deleted_file_declines_witness :
    gone_state.workers[0]? = some ⟨⟨7, 1, Operation.READ, ⟨0⟩, false, false⟩, Pc.entered, false⟩ ∧
      file_at gone_state.files ((1 : Int) - 1) = some ⟨0, 0, true⟩ ∧
      step race_cfg gone_state 0 false = some (Label.decline,
        { files := gone_state.files,
          workers := gone_state.workers.set 0
            { req := ⟨7, 1, Operation.READ, ⟨0⟩, false, false⟩, pc := Pc.returned,
              declined := true } }) :=
  ⟨rfl, by decide,
    C5_deleted_file_declines race_cfg gone_state 0 false
      ⟨⟨7, 1, Operation.READ, ⟨0⟩, false, false⟩, Pc.entered, false⟩ ⟨0, 0, true⟩ rfl rfl
      (by decide) rfl⟩

/-- C6 fails on the code: a request whose wait timed out inside its handler
ends with both `is_cancelled` and `is_processed` true, because line 298 runs
after every handler return. -/
theorem C6_cancelled_and_processed :
    init late_cfg late_reqs = some late_init ∧
      trace late_cfg late_init late_sched =
        some [Label.taken_up, Label.admission, Label.taken_up, Label.wait, Label.timeout,
          Label.processed] ∧
      (exec late_cfg late_init late_sched).map
          (fun s => s.workers.map
            (fun w => (w.pc, w.req.is_processed, w.req.is_cancelled, w.declined))) =
        some [(Pc.admitted, false, false, false), (Pc.finished, true, true, false)] := by
  decide

/-- C7: when the wait of a handler (READ, WRITE or DELETE) reports a timeout,
the step sets `is_cancelled`, returns from the handler and leaves the whole
`files` array as it was; in every later state the request is still cancelled and
the only step its worker can take is line 298, so it is never admitted. -/
theorem C7_timeout_cancels_without_mutation (cfg : Config) (s : State) (i : Nat) (w : Worker)
    (f : FileState) (hw : s.workers[i]? = some w) (hpc : w.pc = Pc.waiting)
    (hf : file_at s.files (w.req.file_id - 1) = some f) :
    step cfg s i true = some (Label.timeout,
      { files := s.files,
        workers := s.workers.set i
          { req := { w.req with is_cancelled := true }, pc := Pc.returned,
            declined := w.declined } }) ∧
    ∀ (sched : List (Nat × Bool)) (s2 : State),
      exec cfg
        { files := s.files,
          workers := s.workers.set i
            { req := { w.req with is_cancelled := true }, pc := Pc.returned,
              declined := w.declined } } sched = some s2 →
      CancelledDone s2 i ∧
        ∀ (t : Bool) (l : Label) (s3 : State), step cfg s2 i t = some (l, s3) →
          l = Label.processed ∧ s3.files = s2.files := by
  have hfile : s.files.set (w.req.file_id - 1).toNat f = s.files := by
    unfold file_at at hf
    split at hf
    · exact set_same _ _ _ hf
    · cases hf
  have hlt := (List.getElem?_eq_some.mp hw).1
  constructor
  · unfold step process_request
    simp only [hw, hpc, hf, handler_timeout cfg f w hpc, cancel, hfile]
  · intro sched s2 hex
    have h0 : CancelledDone
        { files := s.files,
          workers := s.workers.set i
            { req := { w.req with is_cancelled := true }, pc := Pc.returned,
              declined := w.declined } } i :=
      ⟨{ req := { w.req with is_cancelled := true }, pc := Pc.returned, declined := w.declined },
        List.getElem?_set_self hlt, Or.inl rfl, rfl⟩
    have h2 := cancelled_done_exec cfg sched _ s2 i h0 hex
    refine ⟨h2, ?_⟩
    intro t l s3 hstep
    obtain ⟨w2, hw2, hpc2, _⟩ := h2
    obtain ⟨hl, hfs, _⟩ := step_done cfg s2 s3 i t l w2 hw2 hpc2 hstep
    exact ⟨hl, hfs⟩

/-- C7 for a WRITE whose wait behind another writer times out. -/
theorem C7_timeout_cancels_without_mutation_witness :
    queued_state.workers[1]? =
        some ⟨⟨2, 1, Operation.WRITE, ⟨0⟩, false, false⟩, Pc.waiting, false⟩ ∧
      file_at queued_state.files ((1 : Int) - 1) = some ⟨0, 1, false⟩ ∧
      step late_cfg queued_state 1 true = some (Label.timeout,
        { files := queued_state.files,
          workers := queued_state.workers.set 1
            { req := ⟨2, 1, Operation.WRITE, ⟨0⟩, false, true⟩, pc := Pc.returned,
              declined := false } }) :=
  ⟨rfl, by decide,
    (C7_timeout_cancels_without_mutation late_cfg queued_state 1
      ⟨⟨2, 1, Operation.WRITE, ⟨0⟩, false, false⟩, Pc.waiting, false⟩ ⟨0, 1, false⟩ rfl rfl
      (by decide)).1⟩

/-- C8 fails on the code: with one configured file, a READ for file 2 is not
declined; the handler finds the zero-filled `files[1]`, admits the request and
increments its `active_readers`. -/
theorem C8_unconfigured_file_admitted :
    race_cfg.num_files = 1 ∧ init race_cfg stray_reqs = some stray_init ∧
      trace race_cfg stray_init stray_sched = some [Label.taken_up, Label.admission] ∧
      (exec race_cfg stray_init stray_sched).map
          (fun s => (s.files[1]?, s.workers.map (fun w => (w.pc, w.declined)))) =
        some (some ⟨1, 0, false⟩, [(Pc.admitted, false)]) := by
  decide

/-- C9, as stated, fails in both directions: the line `STOPPED` ends the stream
(the request line after it is left unread and makes no request), and the line
` STOP`, whose first word is `STOP`, does not end it (the next line is read and
makes a request). -/
theorem C9_sentinel_is_not_a_word_test :
    dispatch scan_lf_zero stopped_input [] = Run.done [] "1 1 READ 0\n".toList ∧
      dispatch scan_lf_zero indented_stop_input [] = Run.done [first_request] [] := by
  decide

/-- C9, amended: the loop stops at a line exactly when the line begins with the
four characters `STOP` (so `STOPPED` stops it and a line with white space before
`STOP` does not); when it stops, the requests are those made before and the rest
of the input stays unread; otherwise the loop goes on with the rest. -/
theorem C9_stream_ends_at_line_starting_with_stop (scan_lf : ScanLf) (stdin line rest : List Char)
    (reqs : List Request) (h : next_line stdin = some (line, rest)) :
    (loop_body scan_lf reqs.length line = Iter.stop ↔ line.take 4 = STOP) ∧
    (line.take 4 = STOP → dispatch scan_lf stdin reqs = Run.done reqs rest) ∧
    (line.take 4 ≠ STOP →
      dispatch scan_lf stdin reqs =
        match loop_body scan_lf reqs.length line with
        | Iter.create r => dispatch scan_lf rest (reqs ++ [r])
        | Iter.undefined => Run.undefined
        | _ => dispatch scan_lf rest reqs) := by
  have hiff : loop_body scan_lf reqs.length line = Iter.stop ↔ line.take 4 = STOP := by
    rw [← strncmp_stop]
    unfold loop_body
    constructor
    · intro hb
      by_contra hne
      rw [if_neg hne] at hb
      revert hb
      cases sscanf_request scan_lf line with
      | undefined => simp
      | fewer k => simp only; split <;> simp
      | all u f o t =>
        simp only
        split
        · simp
        · cases parse_operation o <;> simp
    · intro hs
      rw [if_pos hs]
  refine ⟨hiff, ?_, ?_⟩
  · intro hs
    rw [dispatch_next scan_lf stdin line rest reqs h, hiff.mpr hs]
  · intro hs
    rw [dispatch_next scan_lf stdin line rest reqs h]
    have hne : loop_body scan_lf reqs.length line ≠ Iter.stop := fun hb => hs (hiff.mp hb)
    cases hb : loop_body scan_lf reqs.length line with
    | stop => exact absurd hb hne
    | skip => rfl
    | create r => rfl
    | undefined => rfl

/-- The amended C9 on an input whose first line is the sentinel. -/
theorem C9_stream_ends_at_line_starting_with_stop_witness :
    next_line stop_input = some (STOP, "1 1 READ 0\n".toList) ∧
      STOP.take 4 = STOP ∧
      dispatch scan_lf_zero stop_input [] = Run.done [] "1 1 READ 0\n".toList :=
  ⟨by decide, rfl,
    (C9_stream_ends_at_line_starting_with_stop scan_lf_zero stop_input STOP "1 1 READ 0\n".toList []
      (by decide)).2.1 rfl⟩

/-- C10, as stated, fails: the line `1 1 READ 0 extra` has five fields, yet the
loop creates a request from its first four and goes on to the next line. -/
theorem C10_extra_field_is_accepted :
    dispatch scan_lf_zero extra_field_input [] =
      Run.done [first_request, second_request] [] := by
  decide

/-- C10, amended: for a line that does not begin with `STOP`, read while
`requests` has room: if `sscanf` converts fewer than four leading fields, or the
third field is not READ, WRITE or DELETE, no request is created and the loop
goes on with the following lines; if four leading fields convert and the third
is a keyword, exactly one request with those four values is appended, it stays
in the result of the run, and the loop goes on, whatever text follows the fourth
field; in particular a line written `<int> <int> <KEYWORD> <float>...` yields
the request that carries the values of its fields. -/
theorem C10_request_lines (scan_lf : ScanLf) (stdin line rest : List Char)
    (reqs : List Request) (h : next_line stdin = some (line, rest))
    (hstop : line.take 4 ≠ STOP) (hroom : reqs.length < MAX_REQUESTS) :
    (∀ (k : Nat), sscanf_request scan_lf line = Sscanf.fewer k →
      loop_body scan_lf reqs.length line = Iter.skip ∧
        dispatch scan_lf stdin reqs = dispatch scan_lf rest reqs) ∧
    (∀ (u f : Int) (op_str : List Char) (t : Double),
      sscanf_request scan_lf line = Sscanf.all u f op_str t →
      op_str ≠ keyword Operation.READ → op_str ≠ keyword Operation.WRITE →
      op_str ≠ keyword Operation.DELETE →
      loop_body scan_lf reqs.length line = Iter.skip ∧
        dispatch scan_lf stdin reqs = dispatch scan_lf rest reqs) ∧
    (∀ (u f : Int) (op : Operation) (t : Double),
      sscanf_request scan_lf line = Sscanf.all u f (keyword op) t →
      dispatch scan_lf stdin reqs =
          dispatch scan_lf rest
            (reqs ++ [{ user_id := u, file_id := f, operation := op, request_time := t,
                        is_processed := false, is_cancelled := false }]) ∧
        ∀ (rs : List Request) (unread : List Char),
          dispatch scan_lf stdin reqs = Run.done rs unread →
          ∃ more, rs = reqs ++ { user_id := u, file_id := f, operation := op, request_time := t,
                                 is_processed := false, is_cancelled := false } :: more) ∧
    (∀ (nu : Bool) (du : List Char) (nf : Bool) (df : List Char) (op : Operation)
      (tail : List Char) (t : Double) (r4 : List Char),
      line = request_line nu du nf df op tail →
      du ≠ [] → (∀ c ∈ du, isdigit c = true) → df ≠ [] → (∀ c ∈ df, isdigit c = true) →
      fits_int (int_value nu du) = true → fits_int (int_value nf df) = true →
      scan_lf (skip_space tail) = some (t, r4) →
      dispatch scan_lf stdin reqs =
        dispatch scan_lf rest
          (reqs ++ [{ user_id := int_value nu du, file_id := int_value nf df, operation := op,
                      request_time := t, is_processed := false, is_cancelled := false }])) := by
  have hs : strncmp_eq 4 line STOP ≠ true := fun hb => hstop ((strncmp_stop line).mp hb)
  have hfull : ¬ MAX_REQUESTS ≤ reqs.length := by omega
  have hmake : ∀ (u f : Int) (op : Operation) (t : Double),
      sscanf_request scan_lf line = Sscanf.all u f (keyword op) t →
      dispatch scan_lf stdin reqs =
        dispatch scan_lf rest
          (reqs ++ [{ user_id := u, file_id := f, operation := op, request_time := t,
                      is_processed := false, is_cancelled := false }]) := by
    intro u f op t hk
    have hb : loop_body scan_lf reqs.length line =
        Iter.create { user_id := u, file_id := f, operation := op, request_time := t,
                      is_processed := false, is_cancelled := false } := by
      unfold loop_body
      rw [if_neg hs, hk]
      simp only
      rw [if_neg hfull, parse_keyword]
    rw [dispatch_next scan_lf stdin line rest reqs h, hb]
  refine ⟨?_, ?_, ?_, ?_⟩
  · intro k hk
    have hb : loop_body scan_lf reqs.length line = Iter.skip := by
      unfold loop_body
      rw [if_neg hs, hk]
      simp only
      rw [if_neg (fun hc => hfull hc.2)]
    exact ⟨hb, by rw [dispatch_next scan_lf stdin line rest reqs h, hb]⟩
  · intro u f op_str t hk h1 h2 h3
    have hp : parse_operation op_str = none := by
      unfold parse_operation
      unfold keyword at h1 h2 h3
      rw [if_neg h1, if_neg h2, if_neg h3]
    have hb : loop_body scan_lf reqs.length line = Iter.skip := by
      unfold loop_body
      rw [if_neg hs, hk]
      simp only
      rw [if_neg hfull, hp]
    exact ⟨hb, by rw [dispatch_next scan_lf stdin line rest reqs h, hb]⟩
  · intro u f op t hk
    refine ⟨hmake u f op t hk, ?_⟩
    intro rs unread hd
    rw [hmake u f op t hk] at hd
    obtain ⟨more, hm⟩ := dispatch_keeps scan_lf rest.length rest _ rs unread (le_refl _) hd
    exact ⟨more, by rw [hm]; simp⟩
  · intro nu du nf df op tail t r4 hl hdu hdu' hdf hdf' hfu hff hlf
    apply hmake
    rw [hl]
    exact sscanf_request_line scan_lf nu du nf df op tail t r4 hdu hdu' hdf hdf' hfu hff hlf

/-- The amended C10 on a request line with a fifth field. -/
theorem C10_request_lines_witness :
    next_line extra_field_input = some ("1 1 READ 0 extra".toList, "2 1 WRITE 0\n".toList) ∧
      "1 1 READ 0 extra".toList.take 4 ≠ STOP ∧
      ([] : List Request).length < MAX_REQUESTS ∧
      sscanf_request scan_lf_zero "1 1 READ 0 extra".toList =
        Sscanf.all 1 1 (keyword Operation.READ) ⟨0⟩ ∧
      dispatch scan_lf_zero extra_field_input [] =
        dispatch scan_lf_zero "2 1 WRITE 0\n".toList ([] ++ [first_request]) :=
  ⟨by decide, by decide, by decide, by decide,
    (C10_request_lines scan_lf_zero extra_field_input "1 1 READ 0 extra".toList
      "2 1 WRITE 0\n".toList [] (by decide) (by decide) (by decide)).2.2.1 1 1 Operation.READ ⟨0⟩
      (by decide) |>.1⟩


/-! ## Lemmas for C11 and C12 -/

theorem handler_admitted (cfg : Config) (f f' : FileState) (w w' : Worker) (t : Bool)
    (l : Label) (h : handler cfg f w t = some (l, f', w')) (hpc : w'.pc = Pc.admitted) :
    w'.req.operation ≠ Operation.DELETE ∧ w'.req.file_id = w.req.file_id := by
  unfold handler handle_read handle_write handle_delete read_loop write_loop delete_loop
    decline cancel at h
  cases hop : w.req.operation <;> cases hpc0 : w.pc <;> simp only [hop, hpc0] at h <;>
    first
    | (cases h; done)
    | ((try split_ifs at h) <;> simp only [Option.some.injEq, Prod.mk.injEq] at h <;>
        obtain ⟨_, _, rfl⟩ := h <;> simp_all)

theorem file_at_set (files : List FileState) (a : Nat) (g : FileState) (x : Int)
    (h : ∃ f, file_at files x = some f) : ∃ f, file_at (files.set a g) x = some f := by
  obtain ⟨f, hf⟩ := h
  unfold file_at at hf ⊢
  split at hf
  case isFalse => cases hf
  case isTrue hnn =>
    rw [if_pos hnn]
    have hlt := (List.getElem?_eq_some.mp hf).1
    rw [List.getElem?_set]
    by_cases hax : a = x.toNat
    · subst hax
      rw [if_pos rfl, if_pos hlt]
      exact ⟨g, rfl⟩
    · rw [if_neg hax]
      exact ⟨f, hf⟩

theorem file_at_set_self (files : List FileState) (x : Int) (f g : FileState)
    (h : file_at files x = some f) : file_at (files.set x.toNat g) x = some g := by
  unfold file_at at h ⊢
  split at h
  case isFalse => cases h
  case isTrue hnn =>
    rw [if_pos hnn]
    exact List.getElem?_set_self (List.getElem?_eq_some.mp h).1

theorem held_step (cfg : Config) (s s' : State) (j : Nat) (t : Bool) (l : Label)
    (hh : Held s) (h : step cfg s j t = some (l, s')) : Held s' := by
  obtain ⟨w, w', hw, hws, hcase⟩ := step_inv cfg s s' j t l h
  have hlt := (List.getElem?_eq_some.mp hw).1
  intro i v hv hpc
  rw [hws] at hv
  by_cases hij : j = i
  · subst hij
    rw [List.getElem?_set_self hlt] at hv
    cases hv
    rcases hcase with ⟨_, _, hpc', _⟩ | ⟨f, f', hfa, hhd, hfiles⟩
    · exact absurd hpc hpc'
    · obtain ⟨hop, hid⟩ := handler_admitted cfg f f' w w' t l hhd hpc
      refine ⟨hop, f', ?_⟩
      rw [hfiles, hid]
      exact file_at_set_self s.files _ f f' hfa
  · rw [List.getElem?_set_ne hij] at hv
    obtain ⟨hop, hf⟩ := hh i v hv hpc
    refine ⟨hop, ?_⟩
    rcases hcase with ⟨hfiles, _⟩ | ⟨_, f', _, _, hfiles⟩
    · rw [hfiles]; exact hf
    · rw [hfiles]; exact file_at_set s.files _ f' _ hf

theorem held_exec (cfg : Config) (sched : List (Nat × Bool)) (s s' : State)
    (hh : Held s) (h : exec cfg s sched = some s') : Held s' := by
  induction sched generalizing s with
  | nil =>
    simp only [exec, Option.some.injEq] at h
    subst h
    exact hh
  | cons e rest ih =>
    obtain ⟨j, t⟩ := e
    simp only [exec] at h
    cases hs : step cfg s j t with
    | none => simp [hs] at h
    | some r =>
      obtain ⟨l, s1⟩ := r
      simp only [hs] at h
      exact ih s1 (held_step cfg s s1 j t l hh hs) h

theorem held_reachable (cfg : Config) (s : State) (h : Reachable cfg s) : Held s := by
  obtain ⟨reqs, s0, sched, h0, h1⟩ := h
  refine held_exec cfg sched s0 s ?_ h1
  obtain ⟨_, hw⟩ := init_files_zero cfg reqs s0 h0
  intro i w hi hpc
  rw [hw, List.getElem?_map] at hi
  cases hr : reqs[i]? with
  | none => simp [hr] at hi
  | some r =>
    simp only [hr, Option.map_some', Option.some.injEq] at hi
    subst hi
    simp [spawn] at hpc

/-- The one step of a worker that holds a slot: it gives the slot back. -/
theorem release_step (cfg : Config) (s : State) (i : Nat) (t : Bool) (w : Worker)
    (f : FileState) (hw : s.workers[i]? = some w) (hpc : w.pc = Pc.admitted)
    (hop : w.req.operation ≠ Operation.DELETE)
    (hf : file_at s.files (w.req.file_id - 1) = some f) :
    step cfg s i t = some (Label.release,
      { files := s.files.set (w.req.file_id - 1).toNat (released f w),
        workers := s.workers.set i { w with pc := Pc.returned } }) := by
  have hh : handler cfg f w t =
      some (Label.release, released f w, { w with pc := Pc.returned }) := by
    unfold handler handle_read handle_write released slot
    cases hop' : w.req.operation
    · simp [hpc, hop']
    · simp [hpc, hop']
    · exact absurd hop' hop
  unfold step process_request
  simp only [hw, hpc, hf, hh]

theorem holders_finished (op : Operation) (k : Nat) (ws : List Worker)
    (h : ∀ w ∈ ws, w.pc = Pc.finished) : holders op k ws = 0 := by
  unfold holders
  rw [List.countP_eq_zero]
  intro w hw
  simp [holds, h w hw]

theorem sleeps_unlocked_waits (held : Bool) (n : Nat) (rest : List Action) :
    sleeps_unlocked held (List.replicate n Action.wait ++ rest) = sleeps_unlocked held rest := by
  induction n with
  | zero => rfl
  | succ n ih =>
    show sleeps_unlocked held (Action.wait :: (List.replicate n Action.wait ++ rest)) = _
    simp only [sleeps_unlocked, ih]

/-! ## Properties of the specification, C11 and C12 -/

/-- C11: in every reachable state, for every file, `active_readers` is the
number of workers between the increment and the decrement of `handle_read` and
`active_writers` the same for `handle_write`; a worker that holds a slot is a
READ or WRITE whose next step, whatever the clock says, is the release that
takes exactly its own slot off its file; a worker that has returned from its
handler never touches `files` again; and when every worker has finished, both
counters of every file are 0. -/
theorem C11_counters_count_holders (cfg : Config) (s : State) (hr : Reachable cfg s) :
    (∀ (k : Nat) (f : FileState), s.files[k]? = some f →
      f.active_readers = (holders Operation.READ k s.workers : Int) ∧
        f.active_writers = (holders Operation.WRITE k s.workers : Int)) ∧
    (∀ (i : Nat) (w : Worker), s.workers[i]? = some w → w.pc = Pc.admitted →
      (slot Operation.READ w + slot Operation.WRITE w = 1) ∧
      ∃ f, file_at s.files (w.req.file_id - 1) = some f ∧
        ∀ (t : Bool), step cfg s i t = some (Label.release,
          { files := s.files.set (w.req.file_id - 1).toNat (released f w),
            workers := s.workers.set i { w with pc := Pc.returned } })) ∧
    (∀ (i : Nat) (w : Worker) (t : Bool) (l : Label) (s' : State), s.workers[i]? = some w →
      (w.pc = Pc.returned ∨ w.pc = Pc.finished) → step cfg s i t = some (l, s') →
        l = Label.processed ∧ s'.files = s.files) ∧
    ((∀ w ∈ s.workers, w.pc = Pc.finished) →
      ∀ (k : Nat) (f : FileState), s.files[k]? = some f →
        f.active_readers = 0 ∧ f.active_writers = 0) := by
  have hinv := inv_reachable cfg s hr
  have hheld := held_reachable cfg s hr
  refine ⟨?_, ?_, ?_, ?_⟩
  · intro k f hf
    obtain ⟨h1, h2, _, _⟩ := hinv k f hf
    exact ⟨h1, h2⟩
  · intro i w hw hpc
    obtain ⟨hop, f, hf⟩ := hheld i w hw hpc
    refine ⟨?_, f, hf, fun t => release_step cfg s i t w f hw hpc hop hf⟩
    unfold slot
    cases hop' : w.req.operation
    · simp [hpc]
    · simp [hpc]
    · exact absurd hop' hop
  · intro i w t l s' hw hpc hstep
    obtain ⟨h1, h2, _⟩ := step_done cfg s s' i t l w hw hpc hstep
    exact ⟨h1, h2⟩
  · intro hall k f hf
    obtain ⟨h1, h2, _, _⟩ := hinv k f hf
    rw [h1, h2, holders_finished _ _ _ hall, holders_finished _ _ _ hall]
    exact ⟨rfl, rfl⟩

/-- C11 on the sample run in which a READ and a WRITE both hold file 1. -/
theorem C11_counters_count_holders_witness :
    Reachable demo_cfg demo_state ∧ demo_state.files[0]? = some ⟨1, 1, false⟩ ∧
      holders Operation.READ 0 demo_state.workers = 1 ∧
      holders Operation.WRITE 0 demo_state.workers = 1 ∧
      ((FileState.mk 1 1 false).active_readers =
          (holders Operation.READ 0 demo_state.workers : Int) ∧
        (FileState.mk 1 1 false).active_writers =
          (holders Operation.WRITE 0 demo_state.workers : Int)) :=
  ⟨demo_reachable, rfl, by decide, by decide,
    (C11_counters_count_holders demo_cfg demo_state demo_reachable).1 0 ⟨1, 1, false⟩ rfl⟩

/-- C12 fails on the code: on every path `handle_read` and `handle_write` sleep
only after unlocking, but on every path of `handle_delete` that deletes the
file, the sleep of line 253 comes between the lock of line 227 and the unlock
of line 261. -/
theorem C12_delete_sleeps_holding_the_lock :
    (∀ (p : Path), sleeps_unlocked false (handle_read_actions p) = true) ∧
      (∀ (p : Path), sleeps_unlocked false (handle_write_actions p) = true) ∧
      (∀ (woken : Nat),
        sleeps_unlocked false (handle_delete_actions (Path.completed woken)) = false) ∧
      handle_delete_actions (Path.completed 0) =
        [Action.lock, Action.update, Action.sleep, Action.print, Action.broadcast,
         Action.unlock] := by
  refine ⟨?_, ?_, ?_, rfl⟩
  · intro p
    cases p with
    | declined => rfl
    | cancelled n => simp [handle_read_actions, sleeps_unlocked, sleeps_unlocked_waits]
    | completed n => simp [handle_read_actions, sleeps_unlocked, sleeps_unlocked_waits]
  · intro p
    cases p with
    | declined => rfl
    | cancelled n => simp [handle_write_actions, sleeps_unlocked, sleeps_unlocked_waits]
    | completed n => simp [handle_write_actions, sleeps_unlocked, sleeps_unlocked_waits]
  · intro n
    simp [handle_delete_actions, sleeps_unlocked, sleeps_unlocked_waits]

end LazyRW

namespace LazySort

/-! ## Lemmas on the chunked sort -/

theorem asc_length (a n : Nat) : (asc a n).length = n := by
  induction n generalizing a with
  | zero => rfl
  | succ n ih => simp [asc, ih]

theorem asc_append (a m n : Nat) : asc a (m + n) = asc a m ++ asc (a + m) n := by
  induction m generalizing a with
  | zero => simp [asc]
  | succ m ih =>
    have h : m + 1 + n = (m + n) + 1 := by omega
    rw [h]
    have h2 : a + 1 + m = a + (m + 1) := by omega
    simp only [asc, List.cons_append, ih (a + 1), h2]

theorem mem_asc (a n : Nat) (x : File) (h : x ∈ asc a n) :
    ∃ j, j < n ∧ x = record ((a + j : Nat) : Int) := by
  induction n generalizing a with
  | zero => simp [asc] at h
  | succ n ih =>
    simp only [asc, List.mem_cons] at h
    rcases h with h | h
    · exact ⟨0, by omega, by simpa using h⟩
    · obtain ⟨j, hj, hx⟩ := ih (a + 1) h
      refine ⟨j + 1, by omega, ?_⟩
      rw [hx]
      congr 2
      omega

theorem to_int32_small (v : Int) (h1 : -2147483648 ≤ v) (h2 : v < 2147483648) :
    to_int32 v = v := by
  unfold to_int32
  omega

theorem pool_facts :
    (get_available_node init_nodes).1 = some 0 ∧
      (get_available_node (get_available_node init_nodes).2).1 = some 0 ∧
      (get_available_node (get_available_node (get_available_node init_nodes).2).2).1 = some 0 ∧
      (get_available_node pool_joined).1 = some 0 ∧
      release_node pool_merging 0 = pool_joined := by
  decide

/-- A chunk task leaves the array as it is when `qsort` leaves the chunk as it is. -/
theorem chunk_slice (qsort : Qsort) (comp : Comparator) (X Y Z : List File) (s e : Nat)
    (hs : X.length = s) (he : X.length + Y.length = e) (hq : qsort comp Y = Y) :
    sort_worker qsort { start := s, finish := e, comparator := comp, is_merge := false }
      (X ++ Y ++ Z) = X ++ Y ++ Z := by
  subst hs
  subst he
  unfold sort_worker
  simp only [Bool.false_eq_true, if_false]
  have h1 : (X ++ Y ++ Z).take X.length = X := by
    rw [List.append_assoc]; exact List.take_left' rfl
  have h2 : (X ++ Y ++ Z).drop X.length = Y ++ Z := by
    rw [List.append_assoc]; exact List.drop_left' rfl
  have h3 : (X ++ Y ++ Z).drop (X.length + Y.length) = Z :=
    List.drop_left' (by simp)
  have h4 : (Y ++ Z).take (X.length + Y.length - X.length) = Y :=
    List.take_left' (by omega)
  rw [h1, h2, h3, h4, hq]

/-- What `merge` does to an array cut at its three indices. -/
theorem merge_slice (comp : Comparator) (X L R Z : List File) (left mid right : Nat)
    (h1 : X.length = left) (h2 : X.length + L.length = mid + 1)
    (h3 : X.length + L.length + R.length = right + 1) (h4 : 0 < L.length) :
    merge (X ++ L ++ R ++ Z) left mid right comp = X ++ merge_runs comp L R ++ Z := by
  subst h1
  have hL : L.length = mid - X.length + 1 := by omega
  have hR : R.length = right - mid := by omega
  have hXL : (X ++ L).length = mid + 1 := by rw [List.length_append]; exact h2
  have hXLR : (X ++ L ++ R).length = right + 1 := by
    rw [List.length_append, List.length_append]; exact h3
  unfold merge
  have e1 : (X ++ L ++ R ++ Z).take X.length = X := by
    rw [List.append_assoc, List.append_assoc]; exact List.take_left' rfl
  have e2 : (X ++ L ++ R ++ Z).drop X.length = L ++ (R ++ Z) := by
    rw [List.append_assoc, List.append_assoc]; exact List.drop_left' rfl
  have e3 : (L ++ (R ++ Z)).take (mid - X.length + 1) = L := List.take_left' hL
  have e4 : (X ++ L ++ R ++ Z).drop (mid + 1) = R ++ Z := by
    rw [List.append_assoc]; exact List.drop_left' hXL
  have e5 : (R ++ Z).take (right - mid) = R := List.take_left' hR
  have e6 : (X ++ L ++ R ++ Z).drop (right + 1) = Z := List.drop_left' hXLR
  rw [e1, e2, e3, e4, e5, e6]

/-- When every record of the left run is at most the head of the right run, the
merge loop copies the left run and then the right run. -/
theorem merge_runs_le (comp : Comparator) (L R : List File) (b : File)
    (h : ∀ a ∈ L, comp a b ≤ 0) : merge_runs comp L (b :: R) = L ++ b :: R := by
  induction L with
  | nil => simp [merge_runs]
  | cons a l ih =>
    have ha := h a (List.mem_cons_self a l)
    have hl : ∀ x ∈ l, comp x b ≤ 0 := fun x hx => h x (List.mem_cons_of_mem a hx)
    simp only [merge_runs, if_pos ha, ih hl, List.cons_append]

theorem compare_asc_le (a m c : Nat) (x : File) (hx : x ∈ asc a m) (hc : a + m ≤ c)
    (hsmall : c < 2147483648) : compare_by_id x (record (c : Int)) ≤ 0 := by
  obtain ⟨j, hj, rfl⟩ := mem_asc a m x hx
  unfold compare_by_id record
  simp only
  rw [to_int32_small] <;> omega

theorem insertion_qsort_asc (a n : Nat) :
    insertion_qsort compare_by_id (asc a n) = asc a n := by
  induction n generalizing a with
  | zero => rfl
  | succ n ih =>
    have hrec := ih (a + 1)
    unfold insertion_qsort at hrec ⊢
    simp only [asc, List.foldr_cons, hrec]
    cases n with
    | zero => simp [asc]
    | succ k =>
      have hc : ¬ compare_by_id (record ((a + 1 : Nat) : Int)) (record (a : Int)) < 0 := by
        unfold compare_by_id record
        simp only
        have : (((a + 1 : Nat) : Int) - (a : Int)) = 1 := by omega
        rw [this]
        decide
      simp only [asc, List.takeWhile_cons, List.dropWhile_cons, hc, decide_False,
        Bool.false_eq_true, if_false, List.nil_append]

theorem in_order_descent (comp : Comparator) (X Y : List File) (a b : File)
    (h : ¬ comp a b ≤ 0) : in_order comp (X ++ a :: b :: Y) = false := by
  induction X with
  | nil => simp [in_order, h]
  | cons x l ih =>
    cases l with
    | nil =>
      simp only [List.cons_append, List.nil_append, in_order] at ih ⊢
      simp [ih]
    | cons y l' =>
      simp only [List.cons_append, in_order] at ih ⊢
      simp [ih]

theorem merge_pass_stop (qsort : Qsort) (n size : Nat) (comp : Comparator) (fuel i : Nat)
    (st : Pool × List File) (hfuel : 0 < fuel) (h : ¬ i + size < n) :
    merge_pass qsort n size comp fuel i st = some st := by
  cases fuel with
  | zero => omega
  | succ f => simp only [merge_pass, if_neg h]

theorem merge_pass_go (qsort : Qsort) (n size : Nat) (comp : Comparator) (fuel i k : Nat)
    (pool pool' : Pool) (files : List File) (hfuel : 0 < fuel) (h : i + size < n)
    (hnode : get_available_node pool = (some k, pool')) :
    merge_pass qsort n size comp fuel i (pool, files) =
      merge_pass qsort n size comp (fuel - 1) (i + 2 * size)
        (release_node pool' k,
         sort_worker qsort
           { start := i, finish := if i + 2 * size - 1 < n then i + 2 * size - 1 else n - 1,
             comparator := comp, is_merge := true } files) := by
  cases fuel with
  | zero => omega
  | succ f => simp only [merge_pass, if_pos h, hnode, Nat.add_sub_cancel]

theorem merge_phase_stop (qsort : Qsort) (n : Nat) (comp : Comparator) (fuel size : Nat)
    (st : Pool × List File) (hfuel : 0 < fuel) (h : ¬ size < n) :
    merge_phase qsort n comp fuel size st = some st := by
  cases fuel with
  | zero => omega
  | succ f => simp only [merge_phase, if_neg h]

theorem merge_phase_go (qsort : Qsort) (n : Nat) (comp : Comparator) (fuel size : Nat)
    (st st' : Pool × List File) (hfuel : 0 < fuel) (h : size < n)
    (hpass : merge_pass qsort n size comp (n + 1) 0 st = some st') :
    merge_phase qsort n comp fuel size st = merge_phase qsort n comp (fuel - 1) (2 * size) st' := by
  cases fuel with
  | zero => omega
  | succ f => simp only [merge_phase, if_pos h, hpass, Nat.add_sub_cancel]

theorem node_taken (pool : Pool) (k : Nat) (h : (get_available_node pool).1 = some k) :
    get_available_node pool = (some k, (get_available_node pool).2) := by
  rw [← h]

theorem start_chunk_keep (qsort : Qsort) (n : Nat) (comp : Comparator) (pool pool' : Pool)
    (files : List File) (b : Bool) (i k : Nat)
    (hnode : get_available_node pool = (some k, pool'))
    (hfix : sort_worker qsort
      { start := i * CHUNK_SIZE,
        finish := if (i + 1) * CHUNK_SIZE < n then (i + 1) * CHUNK_SIZE else n,
        comparator := comp, is_merge := false } files = files) :
    start_chunk qsort n comp (pool, files, b) i = (pool', files, b) := by
  unfold start_chunk
  simp only [hnode, hfix]

theorem merge_task_keep (qsort : Qsort) (comp : Comparator) (X L R Z : List File) (b : File)
    (start finish : Nat) (hle : ∀ a ∈ L, comp a b ≤ 0) (h1 : X.length = start)
    (h2 : X.length + L.length = (start + finish) / 2 + 1)
    (h3 : X.length + L.length + (b :: R).length = finish + 1) (h4 : 0 < L.length) :
    sort_worker qsort { start := start, finish := finish, comparator := comp, is_merge := true }
      (X ++ L ++ (b :: R) ++ Z) = X ++ L ++ (b :: R) ++ Z := by
  unfold sort_worker
  simp only [if_true]
  rw [merge_slice comp X L (b :: R) Z start ((start + finish) / 2) finish h1 h2 h3 h4,
    merge_runs_le comp L R b hle, List.append_assoc X L]

theorem asc_succ (a n : Nat) : asc a (n + 1) = record (a : Int) :: asc (a + 1) n := rfl

theorem rotated_chunks :
    rotated_input = [] ++ asc 500 1000 ++ (asc 1500 1000 ++ asc 0 500) ∧
      rotated_input = asc 500 1000 ++ asc 1500 1000 ++ asc 0 500 ∧
      rotated_input = asc 500 2000 ++ asc 0 500 ++ [] ∧
      rotated_input =
        [] ++ asc 500 1000 ++ (record ((1500 : Nat) : Int) :: asc 1501 999) ++ asc 0 500 ∧
      rotated_input =
        [] ++ asc 500 1250 ++ (record ((1750 : Nat) : Int) :: (asc 1751 749 ++ asc 0 500)) ++ [] ∧
      rotated_input =
        asc 500 1999 ++ record ((2499 : Nat) : Int) :: record ((0 : Nat) : Int) :: asc 1 499 := by
  have h1 : asc 500 2000 = asc 500 1000 ++ asc 1500 1000 := asc_append 500 1000 1000
  have h2 : asc 1500 1000 = record ((1500 : Nat) : Int) :: asc 1501 999 := asc_succ 1500 999
  have h3 : asc 500 2000 = asc 500 1250 ++ asc 1750 750 := asc_append 500 1250 750
  have h4 : asc 1750 750 = record ((1750 : Nat) : Int) :: asc 1751 749 := asc_succ 1750 749
  have h5 : asc 500 2000 = asc 500 1999 ++ asc 2499 1 := asc_append 500 1999 1
  have h6 : asc 2499 1 = [record ((2499 : Nat) : Int)] := rfl
  have h7 : asc 0 500 = record ((0 : Nat) : Int) :: asc 1 499 := asc_succ 0 499
  unfold rotated_input
  refine ⟨?_, ?_, ?_, ?_, ?_, ?_⟩
  · rw [h1]; simp
  · rw [h1]
  · simp
  · rw [h1, h2]; simp
  · rw [h3, h4]; simp
  · rw [h5, h6, h7]; simp

/-- The run of `distributed_sort` on the rotated array of 2500 records, for any
`qsort` that leaves an ascending range as it is: every chunk is already in
order, the first merge joins records 0-999 and 1000-1999 around index 999, and
the last merge, over records 0-2499, cuts at index 1249 instead of 1999. -/
theorem rotated_run (qsort : Qsort)
    (hq : ∀ (a n : Nat), qsort compare_by_id (asc a n) = asc a n) :
    distributed_sort qsort init_nodes rotated_input 2500 compare_by_id =
      SortRun.done SUCCESS rotated_input pool_joined := by
  obtain ⟨hF1, hF2, hF3, hM1, hM2, _⟩ := rotated_chunks
  obtain ⟨hp1, hp2, hp3, hp4, hp5⟩ := pool_facts
  have k0 : sort_worker qsort
      { start := 0, finish := 1000, comparator := compare_by_id, is_merge := false }
      rotated_input = rotated_input := by
    have h := chunk_slice qsort compare_by_id [] (asc 500 1000) (asc 1500 1000 ++ asc 0 500)
      0 1000 rfl (by simp [asc_length]) (hq 500 1000)
    rw [← hF1] at h
    exact h
  have k1 : sort_worker qsort
      { start := 1000, finish := 2000, comparator := compare_by_id, is_merge := false }
      rotated_input = rotated_input := by
    have h := chunk_slice qsort compare_by_id (asc 500 1000) (asc 1500 1000) (asc 0 500)
      1000 2000 (by simp [asc_length]) (by simp [asc_length]) (hq 1500 1000)
    rw [← hF2] at h
    exact h
  have k2 : sort_worker qsort
      { start := 2000, finish := 2500, comparator := compare_by_id, is_merge := false }
      rotated_input = rotated_input := by
    have h := chunk_slice qsort compare_by_id (asc 500 2000) (asc 0 500) []
      2000 2500 (by simp [asc_length]) (by simp [asc_length]) (hq 0 500)
    rw [← hF3] at h
    exact h
  have m1 : sort_worker qsort
      { start := 0, finish := 1999, comparator := compare_by_id, is_merge := true }
      rotated_input = rotated_input := by
    have h := merge_task_keep qsort compare_by_id [] (asc 500 1000) (asc 1501 999) (asc 0 500)
      (record ((1500 : Nat) : Int)) 0 1999
      (fun a ha => compare_asc_le 500 1000 1500 a ha (by decide) (by decide))
      rfl (by simp [asc_length]) (by simp [asc_length]) (by simp [asc_length])
    rw [← hM1] at h
    exact h
  have m2 : sort_worker qsort
      { start := 0, finish := 2499, comparator := compare_by_id, is_merge := true }
      rotated_input = rotated_input := by
    have h := merge_task_keep qsort compare_by_id [] (asc 500 1250) (asc 1751 749 ++ asc 0 500) []
      (record ((1750 : Nat) : Int)) 0 2499
      (fun a ha => compare_asc_le 500 1250 1750 a ha (by decide) (by decide))
      rfl (by simp [asc_length]) (by simp [asc_length]) (by simp [asc_length])
    rw [← hM2] at h
    exact h
  have c0 : start_chunk qsort 2500 compare_by_id (init_nodes, rotated_input, true) 0 =
      ((get_available_node init_nodes).2, rotated_input, true) :=
    start_chunk_keep qsort 2500 compare_by_id init_nodes _ rotated_input true 0 0
      (node_taken _ _ hp1) k0
  have c1 : start_chunk qsort 2500 compare_by_id
      ((get_available_node init_nodes).2, rotated_input, true) 1 =
      ((get_available_node (get_available_node init_nodes).2).2, rotated_input, true) :=
    start_chunk_keep qsort 2500 compare_by_id _ _ rotated_input true 1 0
      (node_taken _ _ hp2) k1
  have c2 : start_chunk qsort 2500 compare_by_id
      ((get_available_node (get_available_node init_nodes).2).2, rotated_input, true) 2 =
      (pool_chunks, rotated_input, true) :=
    start_chunk_keep qsort 2500 compare_by_id _ _ rotated_input true 2 0
      (node_taken _ _ hp3) k2
  have hjoin : (List.range 3).foldl (fun p i => release_node p (i % MAX_NODES)) pool_chunks =
      pool_joined := by decide
  have pass1 : merge_pass qsort 2500 1000 compare_by_id (2500 + 1) 0
      (pool_joined, rotated_input) = some (pool_joined, rotated_input) := by
    rw [merge_pass_go qsort 2500 1000 compare_by_id (2500 + 1) 0 0 pool_joined pool_merging
      rotated_input (by decide) (by decide) (node_taken _ _ hp4), hp5]
    have hm :
        sort_worker qsort
          { start := 0, finish := if 0 + 2 * 1000 - 1 < 2500 then 0 + 2 * 1000 - 1 else 2500 - 1,
            comparator := compare_by_id, is_merge := true } rotated_input = rotated_input := m1
    rw [hm]
    exact merge_pass_stop qsort 2500 1000 compare_by_id _ _ _ (by decide) (by decide)
  have pass2 : merge_pass qsort 2500 2000 compare_by_id (2500 + 1) 0
      (pool_joined, rotated_input) = some (pool_joined, rotated_input) := by
    rw [merge_pass_go qsort 2500 2000 compare_by_id (2500 + 1) 0 0 pool_joined pool_merging
      rotated_input (by decide) (by decide) (node_taken _ _ hp4), hp5]
    have hm :
        sort_worker qsort
          { start := 0, finish := if 0 + 2 * 2000 - 1 < 2500 then 0 + 2 * 2000 - 1 else 2500 - 1,
            comparator := compare_by_id, is_merge := true } rotated_input = rotated_input := m2
    rw [hm]
    exact merge_pass_stop qsort 2500 2000 compare_by_id _ _ _ (by decide) (by decide)
  have phase : merge_phase qsort 2500 compare_by_id 2500 CHUNK_SIZE
      (pool_joined, rotated_input) = some (pool_joined, rotated_input) := by
    rw [merge_phase_go qsort 2500 compare_by_id 2500 CHUNK_SIZE _ _ (by decide) (by decide) pass1,
      merge_phase_go qsort 2500 compare_by_id _ (2 * CHUNK_SIZE) _ _ (by decide) (by decide)
        pass2]
    exact merge_phase_stop qsort 2500 compare_by_id _ _ _ (by decide) (by decide)
  have hn : ¬ 2500 < CHUNK_SIZE := by decide
  have hnum : (2500 + CHUNK_SIZE - 1) / CHUNK_SIZE = 3 := by decide
  have hrange : List.range 3 = [0, 1, 2] := by decide
  have hfold : (List.range 3).foldl (start_chunk qsort 2500 compare_by_id)
      (init_nodes, rotated_input, true) = (pool_chunks, rotated_input, true) := by
    rw [hrange]
    simp only [List.foldl_cons, List.foldl_nil, c0, c1, c2]
  unfold distributed_sort
  rw [if_neg hn, hnum, hfold]
  simp only [hjoin, phase]

/-- When the head of the left run is above every record of the right run, the
merge loop copies the right run and then the left run. -/
theorem merge_runs_gt (comp : Comparator) (L R : List File) (a : File)
    (h : ∀ b ∈ R, ¬ comp a b ≤ 0) : merge_runs comp (a :: L) R = R ++ a :: L := by
  induction R with
  | nil => simp [merge_runs]
  | cons b r ih =>
    have hb := h b (List.mem_cons_self b r)
    have hr : ∀ x ∈ r, ¬ comp a x ≤ 0 := fun x hx => h x (List.mem_cons_of_mem b hx)
    simp only [merge_runs, if_neg hb, ih hr, List.cons_append]

theorem compare_asc_gt (a m c : Nat) (x : File) (hx : x ∈ asc a m) (hc : a + m ≤ c)
    (hsmall : c < 2147483648) : ¬ compare_by_id (record (c : Int)) x ≤ 0 := by
  obtain ⟨j, hj, rfl⟩ := mem_asc a m x hx
  unfold compare_by_id record
  simp only
  rw [to_int32_small] <;> omega

theorem in_order_asc (a n : Nat) : in_order compare_by_id (asc a n) = true := by
  induction n generalizing a with
  | zero => rfl
  | succ n ih =>
    cases n with
    | zero => rfl
    | succ k =>
      have hrec := ih (a + 1)
      have hc : compare_by_id (record (a : Int)) (record ((a + 1 : Nat) : Int)) ≤ 0 := by
        unfold compare_by_id record
        simp only
        have : ((a : Int) - ((a + 1 : Nat) : Int)) = -1 := by omega
        rw [this]
        decide
      simp only [asc, in_order, Bool.and_eq_true, decide_eq_true_eq] at hrec ⊢
      exact ⟨hc, hrec⟩

/-- The last merge of the 2500-record run, had it been cut at index 1999, where
the first run of 2000 records stops, returns the array in order. -/
theorem rotated_merge_at_run_end :
    merge rotated_input 0 1999 2499 compare_by_id = asc 0 2500 := by
  have h := merge_slice compare_by_id [] (asc 500 2000) (asc 0 500) [] 0 1999 2499 rfl
    (by simp [asc_length]) (by simp [asc_length]) (by simp [asc_length])
  have hI : rotated_input = [] ++ asc 500 2000 ++ asc 0 500 ++ [] := by
    unfold rotated_input; simp
  have hL : asc 500 2000 = record ((500 : Nat) : Int) :: asc 501 1999 := asc_succ 500 1999
  have hA : asc 0 2500 = asc 0 500 ++ asc 500 2000 := asc_append 0 500 2000
  rw [← hI] at h
  rw [h, hL, merge_runs_gt compare_by_id (asc 501 1999) (asc 0 500) (record ((500 : Nat) : Int))
    (fun b hb => compare_asc_gt 0 500 500 b hb (by decide) (by decide)), hA, hL]
  simp

/-! ## Property C13 of the specification -/

/-- C13 fails on the code at its own example `n = 2500`: for the array with ids
500..2499 followed by 0..499, sorted by id, `distributed_sort` returns `SUCCESS`
and the array unchanged, which is not in order (id 2499 is followed by id 0).
The last merge covers records 0..2499 and is cut at `(0 + 2499) / 2 = 1249`,
while the sorted runs it should join end at 1999; cut there, the same merge
returns the ids 0..2499 in order. -/
theorem C13_rotated_array_comes_back_unsorted :
    rotated_input.length = 2500 ∧
      returned (distributed_sort insertion_qsort init_nodes rotated_input 2500 compare_by_id) =
        some (SUCCESS, rotated_input) ∧
      in_order compare_by_id rotated_input = false ∧
      sort_worker insertion_qsort
          { start := 0, finish := 2499, comparator := compare_by_id, is_merge := true }
          rotated_input =
        merge rotated_input 0 1249 2499 compare_by_id ∧
      merge rotated_input 0 1999 2499 compare_by_id = asc 0 2500 ∧
      in_order compare_by_id (asc 0 2500) = true := by
  refine ⟨?_, ?_, ?_, rfl, rotated_merge_at_run_end, in_order_asc 0 2500⟩
  · unfold rotated_input
    simp [asc_length]
  · rw [rotated_run insertion_qsort insertion_qsort_asc]
    rfl
  · rw [rotated_chunks.2.2.2.2.2]
    exact in_order_descent compare_by_id _ _ _ _ (by decide)

end LazySort
